import Mathlib

/-!
QtIVIServiceManager: backend registry and resolver

A shallow embedding of `src/ivicore/qtiviservicemanager.cpp`.

* Pointers to `QObject`s are modelled by `Option QObject` (`none` is the null pointer).
* `QVariantMap` is an association list with the three accessors the source uses
  (`value`, the inserting `operator[]`, and `insert`).
* The plugin machinery (`QPluginLoader`) is an external collaborator, given by a `World`.
* Everything observable from outside (model signals, loader construction, `instance()`,
  `unload()`, `delete`) is appended to a chronological `trace`.
-/

namespace QtIVI

/-! ## Qt value types used by the source -/

/-- A heap `QObject`: its address, and whether `qobject_cast<QtIVIServiceInterface*>`
succeeds on it (its dynamic type implements the service backend interface). -/
structure QObject where
  addr : Nat
  isServiceInterface : Bool
  deriving DecidableEq, Repr

/-- The cast `qobject_cast<QtIVIServiceInterface*>(p)`: null for a null pointer and for an
object that does not implement the interface, otherwise a pointer to the same object. -/
def qobject_cast (p : Option QObject) : Option QObject :=
  match p with
  | none => none
  | some o => if o.isServiceInterface then some o else none

/-- The Qt `QVariant` values that can occur in plugin metadata, plus the pointer variant
built by `QVariant::fromValue<QtIVIServiceInterface*>`. A JSON number is represented by the
text `toString()` renders it to. -/
inductive QVariant where
  | invalid
  | bool (b : Bool)
  | number (text : String)
  | string (s : String)
  | stringList (l : List String)
  | list (l : List QVariant)
  | map (m : List (String × QVariant))
  | serviceInterface (p : Option QObject)

namespace QVariant

/-- Qt `QVariant::isNull()` on the metadata values: true for the invalid variant and for a
null pointer. -/
def isNull : QVariant → Bool
  | invalid => true
  | serviceInterface none => true
  | _ => false

/-- Qt `QVariant::toString()`: strings, booleans, numbers and one-element string lists
convert; everything else gives the empty string. -/
def toString : QVariant → String
  | string s => s
  | bool true => "true"
  | bool false => "false"
  | number t => t
  | stringList [s] => s
  | _ => ""

/-- Qt `QVariant::toList()`: a list or string list converts; everything else gives the
empty list. -/
def toList : QVariant → List QVariant
  | list l => l
  | stringList l => l.map string
  | _ => []

/-- Qt `QVariant::toStringList()`: a string list is itself, a string is a one-element
list, a list is converted element by element with `toString`; everything else gives the
empty list. -/
def toStringList : QVariant → List String
  | stringList l => l
  | string s => [s]
  | list l => l.map toString
  | _ => []

/-- Qt `QVariant::toMap()`: a map converts; everything else gives the empty map. -/
def toMap : QVariant → List (String × QVariant)
  | map m => m
  | _ => []

end QVariant

/-- Qt `QVariantMap` (`QMap<QString, QVariant>`), as an association list with unique keys. -/
abbrev QVariantMap := List (String × QVariant)

namespace QVariantMap

/-- The const lookup `QMap::value(key)`: the stored value, or a default-constructed (invalid)
variant when the key is missing. -/
def value (m : QVariantMap) (key : String) : QVariant :=
  match m.lookup key with
  | some v => v
  | none => QVariant.invalid

/-- The method `QMap::insert(key, v)`: replaces the value of an existing key, otherwise adds
the pair. -/
def insert : QVariantMap → String → QVariant → QVariantMap
  | [], key, v => [(key, v)]
  | (k, x) :: rest, key, v =>
    if k == key then (k, v) :: rest else (k, x) :: insert rest key v

/-- The non-const `QMap::operator[](key)`: returns the stored value; when the key is missing
it first inserts a default-constructed (invalid) variant. The second component is the map
after the call. -/
def index (m : QVariantMap) (key : String) : QVariant × QVariantMap :=
  match m.lookup key with
  | some v => (v, m)
  | none => (QVariant.invalid, insert m key QVariant.invalid)

end QVariantMap

/-- Qt `QJsonObject` as returned by `QPluginLoader::metaData()`; every `QJsonValue` is
represented by the `QVariant` that `toVariant()` yields, so `value(key).toVariant()` is a
lookup that gives the invalid variant for a missing (undefined) key. -/
abbrev QJsonObject := List (String × QVariant)

/-- A heap `QPluginLoader` created by `new QPluginLoader(fileName)`; `id` is the number of
loaders constructed before it and gives the object its identity. -/
structure QPluginLoader where
  id : Nat
  fileName : String
  deriving DecidableEq, Repr

/-- The source `struct Backend`: one catalog entry. -/
structure Backend where
  metaData : QVariantMap
  interface : Option QObject
  interfaceObject : Option QObject
  loader : Option QPluginLoader

/-- What a slot connected to a model signal can see of the manager when the signal is
emitted. -/
structure Snapshot where
  backends : List Backend
  interfaceNames : Finset String

/-- The diagnostics the source logs: the malformed metadata message of `registerBackend`,
the two failure messages of `loadServiceBackendInterface`, and the warning of
`searchPlugins`. -/
inductive Diagnostic where
  | malformedMetaData
  | failedToCast
  | failedToLoad
  | noPluginsFound
  deriving DecidableEq, Repr

/-- Externally observable effects, in the order the source performs them. -/
inductive Event where
  | beginInsertRows (first last : Nat) (seen : Snapshot)
  | endInsertRows (seen : Snapshot)
  | beginResetModel (seen : Snapshot)
  | endResetModel (seen : Snapshot)
  | newLoader (l : QPluginLoader)
  | loaderInstance (l : QPluginLoader)
  | loaderUnload (l : QPluginLoader)
  | deleteLoader (l : QPluginLoader)
  | deleteObject (o : QObject)
  | diagnostic (d : Diagnostic) (fileName : String)

/-- The external collaborators: the plugin loader and the file system scanned by
`searchPlugins`. `loaderInstance k f` is what `instance()` returns on the `k`-th constructed
`QPluginLoader`, created for file `f` (null when the plugin cannot be loaded).
`absoluteCleanPath dir p` is `QDir(dir).absoluteFilePath(QDir::cleanPath(p))`;
`loaderFileName a` and `loaderMetaData a` are `fileName()` and `metaData()` of a
`QPluginLoader` constructed with argument `a`. -/
structure World where
  loaderInstance : Nat → String → Option QObject
  libraryPaths : List String
  separator : String
  pluginDirExists : String → Bool
  entryList : String → List String
  absoluteCleanPath : String → String → String
  loaderFileName : String → String
  loaderMetaData : String → QJsonObject

/-- The private data of the manager (`m_backends`, `m_interfaceNames`) together with the
bookkeeping of the model: how many `QPluginLoader`s `loadServiceBackendInterface` has
constructed with `new` so far, and the trace of observable effects. -/
structure QtIVIServiceManager where
  m_backends : List Backend
  m_interfaceNames : Finset String
  loadersConstructed : Nat
  trace : List Event

/-- The proxy `QtIVIProxyServiceObject(interface)` returned to callers; it stores the
(possibly null) interface pointer it was constructed with. -/
structure QtIVIProxyServiceObject where
  m_interface : Option QObject
  deriving DecidableEq, Repr

/-- Qt `QModelIndex`; it is valid when row and column are non-negative and it belongs to a
model. -/
structure QModelIndex where
  row : Int
  column : Int
  hasModel : Bool
  deriving DecidableEq, Repr

/-- Qt `QModelIndex::isValid()`. -/
def QModelIndex.isValid (i : QModelIndex) : Bool :=
  decide (0 ≤ i.row) && decide (0 ≤ i.column) && i.hasModel

/-- The default-constructed (invalid) `QModelIndex()`. -/
def QModelIndex.root : QModelIndex := ⟨-1, -1, false⟩

/-- The role constant `Qt::DisplayRole`. -/
def DisplayRole : Int := 0

/-- The manager right after `QtIVIServiceManagerPrivate` is constructed. -/
def QtIVIServiceManager.empty : QtIVIServiceManager :=
  ⟨[], ∅, 0, []⟩

/-- What a connected slot sees of manager `s`. -/
def QtIVIServiceManager.snapshot (s : QtIVIServiceManager) : Snapshot :=
  ⟨s.m_backends, s.m_interfaceNames⟩

/-! ## The operations of `QtIVIServiceManagerPrivate` -/

/-- The result of `loadServiceBackendInterface`: the returned pointer, the backend record
after the call, and the loader count and trace after the call. -/
structure LoadResult where
  result : Option QObject
  backend : Backend
  loadersConstructed : Nat
  trace : List Event

/-- Source `QtIVIServiceManagerPrivate::loadServiceBackendInterface`. -/
def loadServiceBackendInterface (w : World) (backend : Backend) (k : Nat)
    (trace : List Event) : LoadResult :=
  match backend.interface with
  | some i => ⟨some i, backend, k, trace⟩
  | none =>
    let (fn, md) := QVariantMap.index backend.metaData "fileName"
    let backend1 : Backend := { backend with metaData := md }
    let loader : QPluginLoader := ⟨k, fn.toString⟩
    let t1 := trace ++ [Event.newLoader loader, Event.loaderInstance loader]
    match w.loaderInstance k loader.fileName with
    | some plugin =>
      match qobject_cast (some plugin) with
      | some backendInterface =>
        ⟨some backendInterface,
          { backend1 with interface := some backendInterface, loader := some loader },
          k + 1, t1⟩
      | none =>
        ⟨none, backend1, k + 1,
          t1 ++ [Event.diagnostic Diagnostic.failedToCast loader.fileName,
                 Event.deleteLoader loader]⟩
    | none =>
      ⟨none, backend1, k + 1,
        t1 ++ [Event.diagnostic Diagnostic.failedToLoad loader.fileName,
               Event.deleteLoader loader]⟩

/-- The result of the `foreach` loop of `findServiceByInterface` over a list of backends:
the backends after the loop, the proxies appended, and the loader count and trace. -/
structure FindResult where
  backends : List Backend
  list : List QtIVIProxyServiceObject
  loadersConstructed : Nat
  trace : List Event

/-- The `foreach (Backend *backend, m_backends)` loop of `findServiceByInterface`: every
backend whose `interfaces` metadata contains the name is passed to
`loadServiceBackendInterface`, and a proxy of whatever it returns is appended to `list`.
The backends are visited front to back, so the proxy of the head precedes the proxies of
the rest. -/
def findLoop (w : World) (interface : String) :
    List Backend → Nat → List Event → FindResult
  | [], k, trace => ⟨[], [], k, trace⟩
  | backend :: rest, k, trace =>
    let (v, md) := QVariantMap.index backend.metaData "interfaces"
    let backend1 : Backend := { backend with metaData := md }
    if v.toStringList.contains interface then
      let r := loadServiceBackendInterface w backend1 k trace
      let rec_ := findLoop w interface rest r.loadersConstructed r.trace
      ⟨r.backend :: rec_.backends, ⟨r.result⟩ :: rec_.list,
        rec_.loadersConstructed, rec_.trace⟩
    else
      let rec_ := findLoop w interface rest k trace
      ⟨backend1 :: rec_.backends, rec_.list, rec_.loadersConstructed, rec_.trace⟩

/-- Source `QtIVIServiceManagerPrivate::findServiceByInterface` (and the public
`QtIVIServiceManager::findServiceByInterface` that forwards to it): the returned list and
the manager after the call. -/
def findServiceByInterface (w : World) (s : QtIVIServiceManager) (interface : String) :
    List QtIVIProxyServiceObject × QtIVIServiceManager :=
  let r := findLoop w interface s.m_backends s.loadersConstructed s.trace
  (r.list, { s with m_backends := r.backends, loadersConstructed := r.loadersConstructed,
                    trace := r.trace })

/-- Source `QtIVIServiceManagerPrivate::addBackend`. -/
def addBackend (s : QtIVIServiceManager) (backend : Backend) : QtIVIServiceManager :=
  let n := s.m_backends.length
  let t1 := s.trace ++ [Event.beginInsertRows n n s.snapshot]
  let s1 : QtIVIServiceManager :=
    { s with m_backends := s.m_backends ++ [backend], trace := t1 }
  let s2 : QtIVIServiceManager := { s1 with trace := t1 ++ [Event.endInsertRows s1.snapshot] }
  let (v, md) := QVariantMap.index backend.metaData "interfaces"
  { s2 with
    m_backends := s.m_backends ++ [{ backend with metaData := md }],
    m_interfaceNames :=
      v.toStringList.foldl (fun names interface => insert interface names)
        s2.m_interfaceNames }

/-- Source `QtIVIServiceManagerPrivate::registerBackend(const QString, const QJsonObject)`,
the registration of a scanned plugin. -/
def registerBackend (s : QtIVIServiceManager) (fileName : String) (metaData : QJsonObject) :
    QtIVIServiceManager :=
  let backendMetaData : QVariantMap := (QVariantMap.value metaData "MetaData").toMap
  let (v1, md1) := QVariantMap.index backendMetaData "interfaces"
  if v1.isNull || (QVariantMap.index md1 "interfaces").1.toList.isEmpty then
    { s with trace := s.trace ++ [Event.diagnostic Diagnostic.malformedMetaData fileName] }
  else
    let md2 := (QVariantMap.index md1 "interfaces").2
    let md3 := QVariantMap.insert md2 "fileName" (QVariant.string fileName)
    addBackend s ⟨md3, none, none, none⟩

/-- Source `QtIVIServiceManagerPrivate::registerBackend(QObject*, const QStringList&)`: the
returned boolean and the manager after the call. -/
def registerBackendObject (s : QtIVIServiceManager)
    (serviceBackendInterface : Option QObject) (interfaces : List String) :
    Bool × QtIVIServiceManager :=
  if interfaces.isEmpty then
    (false, s)
  else
    match qobject_cast serviceBackendInterface with
    | none => (false, s)
    | some interface =>
      let metaData : QVariantMap :=
        QVariantMap.insert [] "interfaces" (QVariant.stringList interfaces)
      (true, addBackend s ⟨metaData, some interface, serviceBackendInterface, none⟩)

/-- Source `QtIVIServiceManager::registerService`, which forwards to
`registerBackend(QObject*, const QStringList&)`. -/
def registerService (s : QtIVIServiceManager)
    (serviceBackendInterface : Option QObject) (interfaces : List String) :
    Bool × QtIVIServiceManager :=
  registerBackendObject s serviceBackendInterface interfaces

/-- The releases the body of the teardown loop performs for one backend: unload and delete
its loader if it has one, otherwise delete the owned object if there is one. -/
def releaseBackend (backend : Backend) : List Event :=
  match backend.loader with
  | some l => [Event.loaderUnload l, Event.deleteLoader l]
  | none =>
    match backend.interfaceObject with
    | some o => [Event.deleteObject o]
    | none => []

/-- The loop `for (int i = 0; i < m_backends.count(); i++)` of `unloadAllBackends`, whose
body starts with `m_backends.takeAt(i)`. `fuel` bounds the number of iterations; the loop
is entered with `fuel = m_backends.count()`, which it can never exhaust. -/
def unloadLoop : Nat → Nat → List Backend → List Event → List Backend × List Event
  | 0, _, backends, trace => (backends, trace)
  | fuel + 1, i, backends, trace =>
    if h : i < backends.length then
      let backend := backends.get ⟨i, h⟩
      unloadLoop fuel (i + 1) (backends.eraseIdx i) (trace ++ releaseBackend backend)
    else
      (backends, trace)

/-- The effect of source `QtIVIServiceManagerPrivate::unloadAllBackends` (and of the public
function of the same name that forwards to it) on the manager, for the calls that are
defined. The call is undefined when its loop destroys a loader or an object that was
destroyed before; `teardown` below is the call with that case made explicit, and it
returns this manager whenever it returns one. -/
def unloadAllBackends (s : QtIVIServiceManager) : QtIVIServiceManager :=
  let t0 := s.trace ++ [Event.beginResetModel s.snapshot]
  let r := unloadLoop s.m_backends.length 0 s.m_backends t0
  let s1 : QtIVIServiceManager := { s with m_backends := [], trace := r.2 }
  { s1 with trace := r.2 ++ [Event.endResetModel s1.snapshot] }

/-- What a `delete` destroys: a heap `QPluginLoader` or a heap `QObject`. -/
inductive Resource where
  | loader (l : QPluginLoader)
  | object (o : QObject)
  deriving DecidableEq, Repr

/-- The loaders and objects destroyed by `delete` in a trace, in order. -/
def deletedResources : List Event → List Resource
  | [] => []
  | Event.deleteLoader l :: t => Resource.loader l :: deletedResources t
  | Event.deleteObject o :: t => Resource.object o :: deletedResources t
  | _ :: t => deletedResources t

/-- Whether the release the teardown loop performs for a backend is defined after the
given trace: `backend->loader->unload(); delete backend->loader` needs a loader that was
not deleted before, and `delete backend->interfaceObject` an object that was not deleted
before. -/
def releaseDefined (backend : Backend) (trace : List Event) : Bool :=
  match backend.loader with
  | some l => !(deletedResources trace).contains (Resource.loader l)
  | none =>
    match backend.interfaceObject with
    | some o => !(deletedResources trace).contains (Resource.object o)
    | none => true

/-- The loop of `unloadAllBackends` as `unloadLoop`, with undefined behaviour made
explicit: the result is `none` as soon as the body would destroy a loader or an object a
second time. -/
def unloadLoopChecked :
    Nat → Nat → List Backend → List Event → Option (List Backend × List Event)
  | 0, _, backends, trace => some (backends, trace)
  | fuel + 1, i, backends, trace =>
    if h : i < backends.length then
      let backend := backends.get ⟨i, h⟩
      if releaseDefined backend trace then
        unloadLoopChecked fuel (i + 1) (backends.eraseIdx i) (trace ++ releaseBackend backend)
      else
        none
    else
      some (backends, trace)

/-- Source `QtIVIServiceManagerPrivate::unloadAllBackends` with its undefined behaviour
made explicit: `none` when the loop would destroy a loader or an object a second time,
otherwise the manager after the call. -/
def teardown (s : QtIVIServiceManager) : Option QtIVIServiceManager :=
  match unloadLoopChecked s.m_backends.length 0 s.m_backends
      (s.trace ++ [Event.beginResetModel s.snapshot]) with
  | none => none
  | some r =>
    some { s with
      m_backends := [],
      trace := r.2 ++ [Event.endResetModel ⟨[], s.m_interfaceNames⟩] }

/-- Source `QtIVIServiceManager::hasInterface`. -/
def hasInterface (s : QtIVIServiceManager) (interface : String) : Bool :=
  decide (interface ∈ s.m_interfaceNames)

/-- Source `QtIVIServiceManager::rowCount`. -/
def rowCount (s : QtIVIServiceManager) (parent : QModelIndex) : Nat :=
  if parent.isValid then 0 else s.m_backends.length

/-- Source `QtIVIServiceManager::data`. -/
def data (s : QtIVIServiceManager) (index : QModelIndex) (role : Int) : QVariant :=
  if !index.isValid then
    QVariant.invalid
  else
    let row := index.row
    if 0 ≤ row ∧ row < s.m_backends.length ∧ role = DisplayRole then
      match s.m_backends.get? row.toNat with
      | some backend => QVariant.serviceInterface backend.interface
      | none => QVariant.invalid
    else
      QVariant.invalid

/-- The body of the inner loop of `searchPlugins` for one plugin directory `path`: every
file is registered through a `QPluginLoader` created for it. -/
def searchDir (w : World) (pluginDir path : String) :
    List String → QtIVIServiceManager → QtIVIServiceManager
  | [], s => s
  | pluginPath :: rest, s =>
    let fileName := w.absoluteCleanPath pluginDir (path ++ "/" ++ pluginPath)
    searchDir w pluginDir path rest
      (registerBackend s (w.loaderFileName fileName) (w.loaderMetaData fileName))

/-- The outer loop of `searchPlugins` over the library paths; the boolean is `found`. -/
def searchLoop (w : World) :
    List String → Bool → QtIVIServiceManager → Bool × QtIVIServiceManager
  | [], found, s => (found, s)
  | pluginDir :: rest, found, s =>
    let path := pluginDir ++ w.separator ++ "qtivi"
    if !w.pluginDirExists path then
      searchLoop w rest found s
    else
      let plugins := w.entryList path
      searchLoop w rest (found || !plugins.isEmpty) (searchDir w pluginDir path plugins s)

/-- Source `QtIVIServiceManagerPrivate::searchPlugins`. -/
def searchPlugins (w : World) (s : QtIVIServiceManager) : QtIVIServiceManager :=
  let r := searchLoop w w.libraryPaths false s
  if !r.1 then
    { r.2 with trace := r.2.trace ++
        [Event.diagnostic Diagnostic.noPluginsFound (String.intercalate ":" w.libraryPaths)] }
  else
    r.2

/-! ## Vocabulary for stating properties -/

/-- The interface names a backend lists: `metaData["interfaces"].toStringList()`. -/
def Backend.interfaces (b : Backend) : List String :=
  (QVariantMap.value b.metaData "interfaces").toStringList

/-- Whether a backend lists the interface name, the test of `findServiceByInterface`. -/
def Backend.provides (interface : String) (b : Backend) : Bool :=
  b.interfaces.contains interface

/-- Whether a backend has no live interface yet. -/
def Backend.notLive (b : Backend) : Bool :=
  b.interface.isNone

/-- One call on the manager. -/
inductive Op where
  | findServiceByInterface (interface : String)
  | registerService (serviceBackendInterface : Option QObject) (interfaces : List String)
  | registerBackend (fileName : String) (metaData : QJsonObject)
  | searchPlugins
  | unloadAllBackends

/-- Whether the call is the teardown. -/
def Op.isUnload : Op → Bool
  | unloadAllBackends => true
  | _ => false

/-- The manager after one call. -/
def step (w : World) (s : QtIVIServiceManager) : Op → QtIVIServiceManager
  | Op.findServiceByInterface n => (findServiceByInterface w s n).2
  | Op.registerService o l => (registerService s o l).2
  | Op.registerBackend f md => registerBackend s f md
  | Op.searchPlugins => searchPlugins w s
  | Op.unloadAllBackends => unloadAllBackends s

/-- The manager after a sequence of calls, first call first. -/
def run (w : World) (s : QtIVIServiceManager) : List Op → QtIVIServiceManager
  | [] => s
  | op :: ops => run w (step w s op) ops

/-- The objects deleted in a trace, in order. -/
def deletedObjects : List Event → List QObject
  | [] => []
  | Event.deleteObject o :: t => o :: deletedObjects t
  | _ :: t => deletedObjects t

/-- The loaders unloaded in a trace, in order. -/
def unloadedLoaders : List Event → List QPluginLoader
  | [] => []
  | Event.loaderUnload l :: t => l :: unloadedLoaders t
  | _ :: t => unloadedLoaders t

/-- The loaders on which `instance()` was called in a trace, in order. -/
def instanceCalls : List Event → List QPluginLoader
  | [] => []
  | Event.loaderInstance l :: t => l :: instanceCalls t
  | _ :: t => instanceCalls t

/-- The number of model signals (row insertion and reset notifications) in a trace. -/
def signalCount : List Event → Nat
  | [] => 0
  | Event.beginInsertRows _ _ _ :: t => signalCount t + 1
  | Event.endInsertRows _ :: t => signalCount t + 1
  | Event.beginResetModel _ :: t => signalCount t + 1
  | Event.endResetModel _ :: t => signalCount t + 1
  | _ :: t => signalCount t

/-- The record the loop of `findServiceByInterface` holds after it has read
`backend->metaData["interfaces"]`. -/
def Backend.afterIndex (b : Backend) (key : String) : Backend :=
  { b with metaData := (QVariantMap.index b.metaData key).2 }

/-- The elements at positions 0, 2, 4, ... of a list. -/
def evenPositions {α : Type} : List α → List α
  | [] => []
  | [a] => [a]
  | a :: _ :: rest => a :: evenPositions rest

/-- The elements at positions 1, 3, 5, ... of a list. -/
def oddPositions {α : Type} : List α → List α
  | [] => []
  | [_] => []
  | _ :: b :: rest => b :: oddPositions rest

/-- The plugin file recorded for a backend: `metaData["fileName"].toString()`. -/
def Backend.fileName (b : Backend) : String :=
  (QVariantMap.value b.metaData "fileName").toString

/-- Entry `b2` is entry `b1` at a later time with nothing taken away: it lists the same
interface names, owns the same object, and if `b1` was live then `b2` holds the same
interface pointer and the same loader. -/
def Backend.keeps (b1 b2 : Backend) : Prop :=
  b2.interfaces = b1.interfaces ∧ b2.interfaceObject = b1.interfaceObject ∧
    ∀ i, b1.interface = some i → b2.interface = some i ∧ b2.loader = b1.loader

/-- Every entry of `bs1` is still present in `bs2`, at the same index, as in
`Backend.keeps`. -/
def Preserved (bs1 bs2 : List Backend) : Prop :=
  ∀ (i : Nat) (b : Backend), bs1[i]? = some b → ∃ b2, bs2[i]? = some b2 ∧ b.keeps b2

/-! ## Vocabulary for the scan path -/

/-- The map `metaData.value("MetaData").toVariant().toMap()` that the scan registration
reads from the raw plugin metadata. -/
def backendMetaDataOf (metaData : QJsonObject) : QVariantMap :=
  (QVariantMap.value metaData "MetaData").toMap

/-- Whether raw plugin metadata carries a non-empty `interfaces` list; false when the key
is missing, null, an empty list, or not a list at all. -/
def hasInterfacesList (metaData : QJsonObject) : Bool :=
  match QVariantMap.value (backendMetaDataOf metaData) "interfaces" with
  | QVariant.list (_ :: _) => true
  | QVariant.stringList (_ :: _) => true
  | _ => false

/-- The entry the scan registration builds for a well-formed candidate: the plugin
metadata with `fileName` set to the scan locator, no interface, no object, no loader. -/
def scannedBackend (fileName : String) (metaData : QJsonObject) : Backend :=
  ⟨QVariantMap.insert (backendMetaDataOf metaData) "fileName" (QVariant.string fileName),
    none, none, none⟩

/-- The registration of a sequence of scanned candidates, in order. -/
def registerAll (s : QtIVIServiceManager) :
    List (String × QJsonObject) → QtIVIServiceManager
  | [] => s
  | c :: rest => registerAll (registerBackend s c.1 c.2) rest

/-- The candidates `searchPlugins` finds in one plugin directory: for every file the
`fileName()` and `metaData()` of the `QPluginLoader` created for it. -/
def dirCandidates (w : World) (pluginDir path : String) (files : List String) :
    List (String × QJsonObject) :=
  files.map (fun pluginPath =>
    (w.loaderFileName (w.absoluteCleanPath pluginDir (path ++ "/" ++ pluginPath)),
     w.loaderMetaData (w.absoluteCleanPath pluginDir (path ++ "/" ++ pluginPath))))

/-- The candidates `searchPlugins` finds under the library paths `dirs`, in scan order. -/
def candidatesOf (w : World) : List String → List (String × QJsonObject)
  | [] => []
  | pluginDir :: rest =>
    if w.pluginDirExists (pluginDir ++ w.separator ++ "qtivi") then
      dirCandidates w pluginDir (pluginDir ++ w.separator ++ "qtivi")
        (w.entryList (pluginDir ++ w.separator ++ "qtivi")) ++ candidatesOf w rest
    else
      candidatesOf w rest

/-- All candidates of a scan of the world. -/
def scanCandidates (w : World) : List (String × QJsonObject) :=
  candidatesOf w w.libraryPaths

/-- Whether the metadata map of a backend has the key. -/
def Backend.hasKey (b : Backend) (key : String) : Bool :=
  (List.lookup key b.metaData).isSome

/-- Qt `QVariant::value<QtIVIServiceInterface*>()`: the pointer a variant holds, null for
every variant that does not hold a service interface pointer. -/
def QVariant.toServiceInterface : QVariant → Option QObject
  | QVariant.serviceInterface p => p
  | _ => none

/-- The snapshots delivered with the row-inserted (end) notifications of a trace, in
order. -/
def endInsertSnapshots : List Event → List Snapshot
  | [] => []
  | Event.endInsertRows seen :: t => seen :: endInsertSnapshots t
  | _ :: t => endInsertSnapshots t

/-- A live entry has a source for its interface: the loader it retains or the object that
was registered directly. -/
def Backend.liveHasSource (b : Backend) : Prop :=
  b.interface ≠ none → b.loader ≠ none ∨ b.interfaceObject ≠ none

/-- What a lookup may do to an entry: leave it as it is, or, when it lists the name and is
not live, set its interface pointer and loader and nothing else. -/
def Backend.loadedFrom (n : String) (b b2 : Backend) : Prop :=
  b2 = b ∨
    (Backend.provides n b = true ∧ b.interface = none ∧
      ∃ (o : QObject) (l : QPluginLoader),
        b2 = { b with interface := some o, loader := some l })

/-! ## Concrete objects, worlds and managers used in examples -/

/-- A backend object that implements the service interface. -/
def backendX : QObject := ⟨1, true⟩

/-- A second backend object that implements the service interface. -/
def backendY : QObject := ⟨2, true⟩

/-- An object that does not implement the service interface. -/
def plainObject : QObject := ⟨3, false⟩

/-- A world with no plugin directories whose loader behaves as `f`. -/
def World.ofLoader (f : Nat → String → Option QObject) : World :=
  ⟨f, [], "/", fun _ => false, fun _ => [], fun _ p => p, fun p => p, fun _ => []⟩

/-- A world in which no plugin can be loaded. -/
def worldNoLoad : World := World.ofLoader (fun _ _ => none)

/-- A world in which every plugin loads but its root object is not a service backend. -/
def worldNoCast : World := World.ofLoader (fun _ _ => some plainObject)

/-- A world in which every plugin loads and yields a fresh service backend. -/
def worldLoads : World := World.ofLoader (fun k _ => some ⟨100 + k, true⟩)

/-- Plugin metadata listing the single interface `p.Q`. -/
def metaDataPQ : QJsonObject :=
  [("MetaData", QVariant.map [("interfaces", QVariant.list [QVariant.string "p.Q"])])]

/-- A manager holding one scanned, not yet loaded plugin for `p.Q`. -/
def scannedPQ : QtIVIServiceManager :=
  registerBackend QtIVIServiceManager.empty "/plugins/qtivi/libpq.so" metaDataPQ

/-- A manager holding two scanned plugins for `p.Q`. -/
def scannedTwice : QtIVIServiceManager :=
  registerBackend scannedPQ "/plugins/qtivi/libpq2.so" metaDataPQ

/-- A manager holding the directly registered backend X for `a.b.C`. -/
def directX : QtIVIServiceManager :=
  (registerService QtIVIServiceManager.empty (some backendX) ["a.b.C"]).2

/-- A manager holding the directly registered backends X and then Y for `a.b.C`. -/
def directXY : QtIVIServiceManager :=
  (registerService directX (some backendY) ["a.b.C"]).2

/-- The manager `scannedPQ` after its plugin was loaded by a lookup of `p.Q`. -/
def loadedPQ : QtIVIServiceManager :=
  (findServiceByInterface worldLoads scannedPQ "p.Q").2

/-- The single entry of `loadedPQ`: live, with the loader that produced it. -/
def loadedEntry : Backend :=
  ⟨[("interfaces", QVariant.list [QVariant.string "p.Q"]),
    ("fileName", QVariant.string "/plugins/qtivi/libpq.so")],
   some ⟨100, true⟩, none, some ⟨0, "/plugins/qtivi/libpq.so"⟩⟩

/-- The single entry of `scannedPQ`: not live, no loader. -/
def scannedEntry : Backend :=
  ⟨[("interfaces", QVariant.list [QVariant.string "p.Q"]),
    ("fileName", QVariant.string "/plugins/qtivi/libpq.so")], none, none, none⟩

/-- A sequence of later calls without teardown. -/
def laterCalls : List Op :=
  [Op.registerService (some backendY) ["x.y.Z"], Op.findServiceByInterface "p.Q",
   Op.registerBackend "/plugins/qtivi/other.so" [], Op.findServiceByInterface "a.b.C"]

/-- The shape of every entry the two registration paths build and the lookup maintains:
the metadata has an `interfaces` key with at least one name; an entry that is not live
has its plugin file recorded and holds neither a loader nor an object; an entry with a
loader owns no object. -/
def Backend.ok (b : Backend) : Prop :=
  b.hasKey "interfaces" = true ∧ b.interfaces ≠ [] ∧
  (b.interface = none →
    b.hasKey "fileName" = true ∧ b.loader = none ∧ b.interfaceObject = none) ∧
  (b.loader ≠ none → b.interfaceObject = none)

/-- Every entry of the manager has the shape `Backend.ok` and every interface name it
lists is in `m_interfaceNames`. -/
def Consistent (s : QtIVIServiceManager) : Prop :=
  ∀ b ∈ s.m_backends, b.ok ∧ ∀ n ∈ b.interfaces, n ∈ s.m_interfaceNames

/-- Plugin metadata without an `interfaces` key. -/
def metaDataMalformed : QJsonObject :=
  [("MetaData", QVariant.map [("name", QVariant.string "broken")])]

/-- A scan result of two candidates, the first malformed, the second listing `p.Q`. -/
def scanTwo : List (String × QJsonObject) :=
  [("/plugins/qtivi/libbad.so", metaDataMalformed),
   ("/plugins/qtivi/libpq.so", metaDataPQ)]

/-- A world whose single plugin directory holds the two candidates of `scanTwo`, and in
which every plugin loads and yields a fresh service backend. -/
def worldScan : World :=
  ⟨fun k _ => some ⟨100 + k, true⟩, ["/plugins"], "/",
    fun path => path == "/plugins/qtivi", fun _ => ["libbad.so", "libpq.so"],
    fun _ p => p, fun a => a,
    fun a => if a == "/plugins/qtivi/libpq.so" then metaDataPQ else metaDataMalformed⟩

/-- A world in which the first constructed loader fails to load its plugin and every later
one succeeds. -/
def worldFlaky : World :=
  World.ofLoader (fun k _ => if k = 0 then none else some ⟨100 + k, true⟩)

/-- A manager holding backend X registered for the two names `a.b.C` and `d.e.F`. -/
def directTwoNames : QtIVIServiceManager :=
  (registerService QtIVIServiceManager.empty (some backendX) ["a.b.C", "d.e.F"]).2

/-- The loader or object the teardown loop destroys for a backend, if any. -/
def Backend.resource (b : Backend) : Option Resource :=
  match b.loader with
  | some l => some (Resource.loader l)
  | none =>
    match b.interfaceObject with
    | some o => some (Resource.object o)
    | none => none

/-- No two entries hold the same loader or own the same object, and none of these was
destroyed before. -/
def TeardownSafe (s : QtIVIServiceManager) : Prop :=
  (s.m_backends.filterMap Backend.resource).Nodup ∧
  ∀ r ∈ s.m_backends.filterMap Backend.resource, r ∉ deletedResources s.trace

theorem QVariantMap.index_fst (m : QVariantMap) (key : String) :
    (QVariantMap.index m key).1 = QVariantMap.value m key := by
  unfold QVariantMap.index QVariantMap.value
  cases h : List.lookup key m <;> rfl

theorem QVariantMap.lookup_insert_self (m : QVariantMap) (key : String) (v : QVariant) :
    List.lookup key (QVariantMap.insert m key v) = some v := by
  induction m with
  | nil => simp [QVariantMap.insert, List.lookup]
  | cons p rest ih =>
    obtain ⟨k, x⟩ := p
    by_cases hk : k = key
    · subst hk
      simp [QVariantMap.insert, List.lookup]
    · have hb : (key == k) = false := beq_eq_false_iff_ne.mpr (fun h => hk h.symm)
      simp [QVariantMap.insert, List.lookup, hk, hb, ih]

theorem QVariantMap.lookup_insert_ne (m : QVariantMap) (key other : String) (v : QVariant)
    (hne : other ≠ key) :
    List.lookup other (QVariantMap.insert m key v) = List.lookup other m := by
  have hb : (other == key) = false := beq_eq_false_iff_ne.mpr hne
  induction m with
  | nil => simp [QVariantMap.insert, List.lookup, hb]
  | cons p rest ih =>
    obtain ⟨k, x⟩ := p
    by_cases hk : k = key
    · subst hk
      simp [QVariantMap.insert, List.lookup, hb]
    · by_cases ho : other = k
      · subst ho
        simp [QVariantMap.insert, List.lookup, hk]
      · have hb2 : (other == k) = false := beq_eq_false_iff_ne.mpr ho
        simp [QVariantMap.insert, List.lookup, hk, hb2, ih]

theorem QVariantMap.value_index_snd (m : QVariantMap) (key other : String) :
    QVariantMap.value (QVariantMap.index m key).2 other = QVariantMap.value m other := by
  unfold QVariantMap.index
  cases h : List.lookup key m with
  | some v => rfl
  | none =>
    simp only [QVariantMap.value]
    by_cases ho : other = key
    · subst ho
      rw [QVariantMap.lookup_insert_self, h]
    · rw [QVariantMap.lookup_insert_ne m key other _ ho]

theorem QVariantMap.index_snd_of_lookup (m : QVariantMap) (key : String) (v : QVariant)
    (h : List.lookup key m = some v) : (QVariantMap.index m key).2 = m := by
  unfold QVariantMap.index
  rw [h]

/-! ## Lemmas about `loadServiceBackendInterface` -/

theorem Backend.afterIndex_interfaces (b : Backend) (key : String) :
    (b.afterIndex key).interfaces = b.interfaces := by
  simp [Backend.afterIndex, Backend.interfaces, QVariantMap.value_index_snd]

theorem Backend.afterIndex_provides (b : Backend) (key n : String) :
    Backend.provides n (b.afterIndex key) = Backend.provides n b := by
  simp [Backend.provides, Backend.afterIndex_interfaces]

theorem load_live (w : World) (b : Backend) (k : Nat) (t : List Event) (i : QObject)
    (h : b.interface = some i) :
    loadServiceBackendInterface w b k t = ⟨some i, b, k, t⟩ := by
  unfold loadServiceBackendInterface
  rw [h]

theorem load_notLive (w : World) (b : Backend) (k : Nat) (t : List Event)
    (h : b.interface = none) :
    loadServiceBackendInterface w b k t =
      (let loader : QPluginLoader :=
          ⟨k, (QVariantMap.value b.metaData "fileName").toString⟩
       let b1 := b.afterIndex "fileName"
       let t1 := t ++ [Event.newLoader loader, Event.loaderInstance loader]
       match qobject_cast (w.loaderInstance k loader.fileName) with
       | some i => ⟨some i, { b1 with interface := some i, loader := some loader }, k + 1, t1⟩
       | none =>
         ⟨none, b1, k + 1,
           t1 ++ [Event.diagnostic
                    (if (w.loaderInstance k loader.fileName).isSome
                      then Diagnostic.failedToCast else Diagnostic.failedToLoad)
                    loader.fileName,
                  Event.deleteLoader loader]⟩) := by
  unfold loadServiceBackendInterface
  rw [h]
  simp only [← QVariantMap.index_fst]
  cases hp : w.loaderInstance k (QVariantMap.index b.metaData "fileName").1.toString with
  | none => simp [hp, h, qobject_cast, Backend.afterIndex]
  | some plugin =>
    cases hc : qobject_cast (some plugin) with
    | none => simp [hp, hc, h, Backend.afterIndex]
    | some i => simp [hp, hc, h, Backend.afterIndex]

theorem load_result (w : World) (b : Backend) (k : Nat) (t : List Event) :
    (loadServiceBackendInterface w b k t).result =
      (loadServiceBackendInterface w b k t).backend.interface := by
  cases h : b.interface with
  | some i => rw [load_live w b k t i h]; exact h.symm
  | none =>
    rw [load_notLive w b k t h]
    simp only
    cases qobject_cast (w.loaderInstance k (QVariantMap.value b.metaData "fileName").toString)
      with
    | none => simp [Backend.afterIndex, h]
    | some i => simp

theorem load_interfaces (w : World) (b : Backend) (k : Nat) (t : List Event) :
    (loadServiceBackendInterface w b k t).backend.interfaces = b.interfaces := by
  cases h : b.interface with
  | some i => rw [load_live w b k t i h]
  | none =>
    rw [load_notLive w b k t h]
    simp only
    cases qobject_cast (w.loaderInstance k (QVariantMap.value b.metaData "fileName").toString)
      with
    | none => simp [Backend.afterIndex_interfaces]
    | some i =>
      simp only [Backend.interfaces]
      exact Backend.afterIndex_interfaces b "fileName"

theorem load_count (w : World) (b : Backend) (k : Nat) (t : List Event) :
    (loadServiceBackendInterface w b k t).loadersConstructed =
      k + (if b.notLive then 1 else 0) := by
  cases h : b.interface with
  | some i => rw [load_live w b k t i h]; simp [Backend.notLive, h]
  | none =>
    rw [load_notLive w b k t h]
    simp only
    cases qobject_cast (w.loaderInstance k (QVariantMap.value b.metaData "fileName").toString)
      with
    | none => simp [Backend.notLive, h]
    | some i => simp [Backend.notLive, h]

/-! ## Lemmas about the loop of `findServiceByInterface` -/

theorem findLoop_cons (w : World) (n : String) (b : Backend) (rest : List Backend) (k : Nat)
    (t : List Event) :
    findLoop w n (b :: rest) k t =
      if Backend.provides n b then
        (let r := loadServiceBackendInterface w (b.afterIndex "interfaces") k t
         let rr := findLoop w n rest r.loadersConstructed r.trace
         ⟨r.backend :: rr.backends, ⟨r.result⟩ :: rr.list, rr.loadersConstructed, rr.trace⟩)
      else
        (let rr := findLoop w n rest k t
         ⟨b.afterIndex "interfaces" :: rr.backends, rr.list, rr.loadersConstructed,
           rr.trace⟩) := by
  simp only [Backend.provides, Backend.interfaces, ← QVariantMap.index_fst]
  rfl

theorem findLoop_append (w : World) (n : String) (bs1 bs2 : List Backend) (k : Nat)
    (t : List Event) :
    findLoop w n (bs1 ++ bs2) k t =
      ⟨(findLoop w n bs1 k t).backends ++
          (findLoop w n bs2 (findLoop w n bs1 k t).loadersConstructed
            (findLoop w n bs1 k t).trace).backends,
        (findLoop w n bs1 k t).list ++
          (findLoop w n bs2 (findLoop w n bs1 k t).loadersConstructed
            (findLoop w n bs1 k t).trace).list,
        (findLoop w n bs2 (findLoop w n bs1 k t).loadersConstructed
            (findLoop w n bs1 k t).trace).loadersConstructed,
        (findLoop w n bs2 (findLoop w n bs1 k t).loadersConstructed
            (findLoop w n bs1 k t).trace).trace⟩ := by
  induction bs1 generalizing k t with
  | nil => simp [findLoop]
  | cons b rest ih =>
    rw [List.cons_append, findLoop_cons, findLoop_cons]
    cases hp : Backend.provides n b <;> simp [ih]

theorem load_provides (w : World) (b : Backend) (k : Nat) (t : List Event) (n : String) :
    Backend.provides n (loadServiceBackendInterface w b k t).backend = Backend.provides n b := by
  simp [Backend.provides, load_interfaces]

theorem findLoop_interfaces (w : World) (n : String) (bs : List Backend) (k : Nat)
    (t : List Event) :
    (findLoop w n bs k t).backends.map Backend.interfaces = bs.map Backend.interfaces := by
  induction bs generalizing k t with
  | nil => simp [findLoop]
  | cons b rest ih =>
    rw [findLoop_cons]
    cases hp : Backend.provides n b <;>
      simp [ih, load_interfaces, Backend.afterIndex_interfaces]

theorem findLoop_provides (w : World) (n m : String) (bs : List Backend) (k : Nat)
    (t : List Event) :
    (findLoop w n bs k t).backends.map (Backend.provides m) = bs.map (Backend.provides m) := by
  have h := congrArg (List.map (fun l : List String => l.contains m))
    (findLoop_interfaces w n bs k t)
  simp only [List.map_map] at h
  exact h

theorem findLoop_length (w : World) (n : String) (bs : List Backend) (k : Nat)
    (t : List Event) : (findLoop w n bs k t).backends.length = bs.length := by
  have h := congrArg List.length (findLoop_interfaces w n bs k t)
  simpa using h

theorem findLoop_wraps (w : World) (n : String) (bs : List Backend) (k : Nat)
    (t : List Event) :
    (findLoop w n bs k t).list.map (fun p => p.m_interface) =
      ((findLoop w n bs k t).backends.filter (Backend.provides n)).map
        (fun b => b.interface) := by
  induction bs generalizing k t with
  | nil => simp [findLoop]
  | cons b rest ih =>
    rw [findLoop_cons]
    cases hp : Backend.provides n b
    · simp [ih, Backend.afterIndex_provides, hp]
    · simp [ih, load_provides, Backend.afterIndex_provides, hp, load_result]

theorem findLoop_list_length (w : World) (n : String) (bs : List Backend) (k : Nat)
    (t : List Event) :
    (findLoop w n bs k t).list.length = (bs.filter (Backend.provides n)).length := by
  induction bs generalizing k t with
  | nil => simp [findLoop]
  | cons b rest ih =>
    rw [findLoop_cons]
    cases hp : Backend.provides n b <;> simp [ih, hp]

theorem findLoop_count (w : World) (n : String) (bs : List Backend) (k : Nat)
    (t : List Event) :
    (findLoop w n bs k t).loadersConstructed =
      k + (bs.filter (fun b => Backend.provides n b && b.notLive)).length := by
  induction bs generalizing k t with
  | nil => simp [findLoop]
  | cons b rest ih =>
    rw [findLoop_cons]
    cases hp : Backend.provides n b
    · simp [ih, hp]
    · have hl2 : (b.afterIndex "interfaces").notLive = b.notLive := rfl
      cases hl : b.notLive
      · simp [ih, hp, hl, hl2, load_count, List.filter_cons]
      · simp [ih, hp, hl, hl2, load_count, List.filter_cons]
        omega

theorem findLoop_no_match (w : World) (n : String) (bs : List Backend) (k : Nat)
    (t : List Event) (h : ∀ b ∈ bs, Backend.provides n b = false) :
    findLoop w n bs k t = ⟨bs.map (fun b => b.afterIndex "interfaces"), [], k, t⟩ := by
  induction bs generalizing k t with
  | nil => simp [findLoop]
  | cons b rest ih =>
    rw [findLoop_cons]
    have hb : Backend.provides n b = false := h b (List.mem_cons_self _ _)
    have hr : ∀ x ∈ rest, Backend.provides n x = false :=
      fun x hx => h x (List.mem_cons_of_mem _ hx)
    simp [hb, ih k t hr]

/-! ## Lemmas about the loop of `unloadAllBackends` -/

theorem unloadLoop_done (fuel i : Nat) (bs : List Backend) (t : List Event)
    (h : bs.length ≤ i) : unloadLoop fuel i bs t = (bs, t) := by
  cases fuel with
  | zero => rfl
  | succ f =>
    have : ¬ i < bs.length := by omega
    simp [unloadLoop, this]

/-- The teardown loop started at index `pre.length` on `pre ++ rest` releases the entries
at positions 0, 2, 4, ... of `rest` and leaves the others in the list, for every `fuel` of
at least `rest.length`: the fuel the loop is entered with is never exhausted. -/
theorem unloadLoop_spec (fuel : Nat) (pre rest : List Backend) (t : List Event)
    (h : rest.length ≤ fuel) :
    unloadLoop fuel pre.length (pre ++ rest) t =
      (pre ++ oddPositions rest,
        t ++ (evenPositions rest).flatMap releaseBackend) := by
  induction fuel generalizing pre rest t with
  | zero =>
    have : rest = [] := List.length_eq_zero.mp (Nat.le_zero.mp h)
    subst this
    simp [unloadLoop, evenPositions, oddPositions]
  | succ f ih =>
    match rest, h with
    | [], _ =>
      rw [unloadLoop_done _ _ _ _ (by simp)]
      simp [evenPositions, oddPositions]
    | [a], _ =>
      have hlt : pre.length < (pre ++ [a]).length := by simp
      simp only [unloadLoop, hlt, dite_true]
      rw [List.eraseIdx_append_of_length_le (Nat.le_refl _)]
      simp only [Nat.sub_self, List.eraseIdx_cons_zero, List.append_nil]
      rw [unloadLoop_done _ _ _ _ (Nat.le_succ _)]
      simp [evenPositions, oddPositions]
    | a :: c :: rest2, h2 =>
      have hlt : pre.length < (pre ++ a :: c :: rest2).length := by simp
      simp only [unloadLoop, hlt, dite_true]
      rw [List.eraseIdx_append_of_length_le (Nat.le_refl _)]
      simp only [Nat.sub_self, List.eraseIdx_cons_zero]
      have hlen : pre.length + 1 = (pre ++ [c]).length := by simp
      have happ : pre ++ c :: rest2 = (pre ++ [c]) ++ rest2 := by simp
      rw [hlen, happ, ih (pre ++ [c]) rest2 _ (by simp at h2; omega)]
      have hget : (pre ++ a :: c :: rest2)[pre.length] = a := by
        rw [List.getElem_append_right (Nat.le_refl _)]
        simp
      simp [evenPositions, oddPositions, List.flatMap_cons, hget]

theorem unloadAllBackends_trace (s : QtIVIServiceManager) :
    (unloadAllBackends s).trace =
      s.trace ++ [Event.beginResetModel s.snapshot] ++
        (evenPositions s.m_backends).flatMap releaseBackend ++
        [Event.endResetModel ⟨[], s.m_interfaceNames⟩] := by
  have h := unloadLoop_spec s.m_backends.length [] s.m_backends
    (s.trace ++ [Event.beginResetModel s.snapshot]) (Nat.le_refl _)
  simp only [List.length_nil, List.nil_append] at h
  simp only [unloadAllBackends, h]
  simp [QtIVIServiceManager.snapshot]

/-! ## Entries are preserved by every call except the teardown -/

theorem Backend.keeps_refl (b : Backend) : b.keeps b :=
  ⟨rfl, rfl, fun _ h => ⟨h, rfl⟩⟩

theorem Backend.keeps_trans {b1 b2 b3 : Backend} (h12 : b1.keeps b2) (h23 : b2.keeps b3) :
    b1.keeps b3 := by
  refine ⟨h23.1.trans h12.1, h23.2.1.trans h12.2.1, fun i hi => ?_⟩
  obtain ⟨h2i, h2l⟩ := h12.2.2 i hi
  obtain ⟨h3i, h3l⟩ := h23.2.2 i h2i
  exact ⟨h3i, h3l.trans h2l⟩

theorem Backend.keeps_afterIndex (b : Backend) (key : String) :
    b.keeps (b.afterIndex key) := by
  refine ⟨?_, rfl, fun i hi => ⟨hi, rfl⟩⟩
  simp only [Backend.interfaces, Backend.afterIndex]
  rw [QVariantMap.value_index_snd]

theorem load_keeps (w : World) (b : Backend) (k : Nat) (t : List Event) :
    b.keeps (loadServiceBackendInterface w b k t).backend := by
  cases h : b.interface with
  | some i => rw [load_live w b k t i h]; exact Backend.keeps_refl b
  | none =>
    refine ⟨load_interfaces w b k t, ?_, fun i hi => ?_⟩
    · rw [load_notLive w b k t h]
      simp only
      cases qobject_cast
        (w.loaderInstance k (QVariantMap.value b.metaData "fileName").toString) <;> rfl
    · rw [h] at hi
      cases hi

theorem preserved_refl (bs : List Backend) : Preserved bs bs :=
  fun _ b h => ⟨b, h, Backend.keeps_refl b⟩

theorem preserved_trans {bs1 bs2 bs3 : List Backend} (h12 : Preserved bs1 bs2)
    (h23 : Preserved bs2 bs3) : Preserved bs1 bs3 := by
  intro i b hb
  obtain ⟨b2, hb2, hk2⟩ := h12 i b hb
  obtain ⟨b3, hb3, hk3⟩ := h23 i b2 hb2
  exact ⟨b3, hb3, Backend.keeps_trans hk2 hk3⟩

theorem preserved_cons {b b2 : Backend} {bs bs2 : List Backend} (hk : b.keeps b2)
    (h : Preserved bs bs2) : Preserved (b :: bs) (b2 :: bs2) := by
  intro i x hx
  cases i with
  | zero =>
    simp only [List.getElem?_cons_zero, Option.some.injEq] at hx
    subst hx
    exact ⟨b2, by simp, hk⟩
  | succ j =>
    simp only [List.getElem?_cons_succ] at hx
    obtain ⟨y, hy, hky⟩ := h j x hx
    exact ⟨y, by simpa using hy, hky⟩

theorem preserved_append_right (bs tail : List Backend) : Preserved bs (bs ++ tail) := by
  intro i b hb
  refine ⟨b, ?_, Backend.keeps_refl b⟩
  have hlt : i < bs.length := by
    by_contra hge
    rw [List.getElem?_eq_none (by omega)] at hb
    cases hb
  rw [List.getElem?_append_left hlt]
  exact hb

theorem findLoop_preserved (w : World) (n : String) (bs : List Backend) (k : Nat)
    (t : List Event) : Preserved bs (findLoop w n bs k t).backends := by
  induction bs generalizing k t with
  | nil => intro i b hb; simp at hb
  | cons b rest ih =>
    rw [findLoop_cons]
    cases hp : Backend.provides n b
    · simp only [Bool.false_eq_true, if_false]
      exact preserved_cons (Backend.keeps_afterIndex b _) (ih k t)
    · simp only [if_true]
      exact preserved_cons
        (Backend.keeps_trans (Backend.keeps_afterIndex b _) (load_keeps w _ k t)) (ih _ _)

theorem addBackend_backends (s : QtIVIServiceManager) (b : Backend) :
    (addBackend s b).m_backends = s.m_backends ++ [b.afterIndex "interfaces"] := rfl

theorem registerBackend_cases (s : QtIVIServiceManager) (fileName : String)
    (metaData : QJsonObject) :
    (∃ d, registerBackend s fileName metaData = { s with trace := s.trace ++ [d] }) ∨
    (∃ b, registerBackend s fileName metaData = addBackend s b) := by
  unfold registerBackend
  simp only
  split
  · exact Or.inl ⟨_, rfl⟩
  · exact Or.inr ⟨_, rfl⟩

theorem registerBackend_preserved (s : QtIVIServiceManager) (fileName : String)
    (metaData : QJsonObject) :
    Preserved s.m_backends (registerBackend s fileName metaData).m_backends := by
  rcases registerBackend_cases s fileName metaData with ⟨d, h⟩ | ⟨b, h⟩
  · rw [h]; exact preserved_refl _
  · rw [h, addBackend_backends]; exact preserved_append_right _ _

theorem registerService_cases (s : QtIVIServiceManager) (o : Option QObject)
    (l : List String) :
    registerService s o l = (false, s) ∨
    (∃ i, qobject_cast o = some i ∧ l ≠ [] ∧
      registerService s o l =
        (true, addBackend s
          ⟨QVariantMap.insert [] "interfaces" (QVariant.stringList l), some i, o, none⟩)) := by
  unfold registerService registerBackendObject
  cases l with
  | nil => exact Or.inl rfl
  | cons a l2 =>
    cases hc : qobject_cast o with
    | none => exact Or.inl (by simp)
    | some i => exact Or.inr ⟨i, rfl, by simp, by simp⟩

theorem registerService_preserved (s : QtIVIServiceManager) (o : Option QObject)
    (l : List String) : Preserved s.m_backends (registerService s o l).2.m_backends := by
  rcases registerService_cases s o l with h | ⟨i, _, _, h⟩
  · rw [h]; exact preserved_refl _
  · rw [h]; exact preserved_append_right _ _

theorem searchDir_preserved (w : World) (pluginDir path : String) (files : List String)
    (s : QtIVIServiceManager) :
    Preserved s.m_backends (searchDir w pluginDir path files s).m_backends := by
  induction files generalizing s with
  | nil => exact preserved_refl _
  | cons f rest ih =>
    exact preserved_trans (registerBackend_preserved s _ _) (ih _)

theorem searchLoop_preserved (w : World) (dirs : List String) (found : Bool)
    (s : QtIVIServiceManager) :
    Preserved s.m_backends (searchLoop w dirs found s).2.m_backends := by
  induction dirs generalizing found s with
  | nil => exact preserved_refl _
  | cons d rest ih =>
    simp only [searchLoop]
    split
    · exact ih _ _
    · exact preserved_trans (searchDir_preserved w _ _ _ s) (ih _ _)

theorem searchPlugins_preserved (w : World) (s : QtIVIServiceManager) :
    Preserved s.m_backends (searchPlugins w s).m_backends := by
  unfold searchPlugins
  simp only
  split
  · exact searchLoop_preserved w _ _ s
  · exact searchLoop_preserved w _ _ s

theorem step_preserved (w : World) (s : QtIVIServiceManager) (op : Op)
    (h : op.isUnload = false) : Preserved s.m_backends (step w s op).m_backends := by
  cases op with
  | findServiceByInterface n => exact findLoop_preserved w n _ _ _
  | registerService o l => exact registerService_preserved s o l
  | registerBackend f md => exact registerBackend_preserved s f md
  | searchPlugins => exact searchPlugins_preserved w s
  | unloadAllBackends => cases h

theorem run_preserved (w : World) (s : QtIVIServiceManager) (ops : List Op)
    (h : ∀ op ∈ ops, op.isUnload = false) :
    Preserved s.m_backends (run w s ops).m_backends := by
  induction ops generalizing s with
  | nil => exact preserved_refl _
  | cons op rest ih =>
    exact preserved_trans (step_preserved w s op (h op (List.mem_cons_self _ _)))
      (ih _ (fun x hx => h x (List.mem_cons_of_mem _ hx)))

/-! ## Loader invocations of `findServiceByInterface` -/

theorem instanceCalls_append (t u : List Event) :
    instanceCalls (t ++ u) = instanceCalls t ++ instanceCalls u := by
  induction t with
  | nil => rfl
  | cons e rest ih => cases e <;> simp [instanceCalls, ih]

theorem load_instanceCalls (w : World) (b : Backend) (k : Nat) (t : List Event) :
    instanceCalls (loadServiceBackendInterface w b k t).trace =
      instanceCalls t ++ (if b.notLive then [⟨k, b.fileName⟩] else []) := by
  cases h : b.interface with
  | some i => rw [load_live w b k t i h]; simp [Backend.notLive, h]
  | none =>
    rw [load_notLive w b k t h]
    simp only
    cases qobject_cast (w.loaderInstance k (QVariantMap.value b.metaData "fileName").toString)
      <;> simp [Backend.notLive, h, instanceCalls_append, instanceCalls, Backend.fileName]

theorem Backend.afterIndex_fileName (b : Backend) (key : String) :
    (b.afterIndex key).fileName = b.fileName := by
  simp [Backend.afterIndex, Backend.fileName, QVariantMap.value_index_snd]

theorem findLoop_instanceCalls (w : World) (n : String) (bs : List Backend) (k : Nat)
    (t : List Event) :
    (instanceCalls (findLoop w n bs k t).trace).map (fun l => l.fileName) =
      (instanceCalls t).map (fun l => l.fileName) ++
        (bs.filter (fun b => Backend.provides n b && b.notLive)).map Backend.fileName := by
  induction bs generalizing k t with
  | nil => simp [findLoop]
  | cons b rest ih =>
    rw [findLoop_cons]
    have hl2 : (b.afterIndex "interfaces").notLive = b.notLive := rfl
    cases hp : Backend.provides n b
    · simp [ih, hp]
    · cases hl : b.notLive <;>
        simp [ih, hp, hl, hl2, load_instanceCalls, Backend.afterIndex_fileName]

/-! ## Known interface names only grow, except that nothing ever removes them -/

theorem foldl_insert_mem (l : List String) (init : Finset String) (x : String) :
    x ∈ l.foldl (fun names interface => insert interface names) init ↔ x ∈ init ∨ x ∈ l := by
  induction l generalizing init with
  | nil => simp
  | cons a rest ih =>
    simp only [List.foldl_cons, ih, Finset.mem_insert, List.mem_cons]
    tauto

theorem addBackend_names (s : QtIVIServiceManager) (b : Backend) (x : String) :
    x ∈ (addBackend s b).m_interfaceNames ↔ x ∈ s.m_interfaceNames ∨ x ∈ b.interfaces := by
  unfold addBackend
  simp only [QVariantMap.index_fst]
  exact foldl_insert_mem _ _ _

theorem registerBackend_names_mono (s : QtIVIServiceManager) (fileName : String)
    (metaData : QJsonObject) (x : String) (h : x ∈ s.m_interfaceNames) :
    x ∈ (registerBackend s fileName metaData).m_interfaceNames := by
  rcases registerBackend_cases s fileName metaData with ⟨d, hd⟩ | ⟨b, hb⟩
  · rw [hd]; exact h
  · rw [hb, addBackend_names]; exact Or.inl h

theorem registerService_names_mono (s : QtIVIServiceManager) (o : Option QObject)
    (l : List String) (x : String) (h : x ∈ s.m_interfaceNames) :
    x ∈ (registerService s o l).2.m_interfaceNames := by
  rcases registerService_cases s o l with hf | ⟨i, _, _, hb⟩
  · rw [hf]; exact h
  · rw [hb, addBackend_names]; exact Or.inl h

theorem searchDir_names_mono (w : World) (pluginDir path : String) (files : List String)
    (s : QtIVIServiceManager) (x : String) (h : x ∈ s.m_interfaceNames) :
    x ∈ (searchDir w pluginDir path files s).m_interfaceNames := by
  induction files generalizing s with
  | nil => exact h
  | cons f rest ih => exact ih _ (registerBackend_names_mono s _ _ x h)

theorem searchLoop_names_mono (w : World) (dirs : List String) (found : Bool)
    (s : QtIVIServiceManager) (x : String) (h : x ∈ s.m_interfaceNames) :
    x ∈ (searchLoop w dirs found s).2.m_interfaceNames := by
  induction dirs generalizing found s with
  | nil => exact h
  | cons d rest ih =>
    simp only [searchLoop]
    split
    · exact ih _ _ h
    · exact ih _ _ (searchDir_names_mono w _ _ _ s x h)

theorem searchPlugins_names_mono (w : World) (s : QtIVIServiceManager) (x : String)
    (h : x ∈ s.m_interfaceNames) : x ∈ (searchPlugins w s).m_interfaceNames := by
  unfold searchPlugins
  simp only
  split
  · exact searchLoop_names_mono w _ _ s x h
  · exact searchLoop_names_mono w _ _ s x h

theorem step_names_mono (w : World) (s : QtIVIServiceManager) (op : Op) (x : String)
    (h : x ∈ s.m_interfaceNames) : x ∈ (step w s op).m_interfaceNames := by
  cases op with
  | findServiceByInterface n => exact h
  | registerService o l => exact registerService_names_mono s o l x h
  | registerBackend f md => exact registerBackend_names_mono s f md x h
  | searchPlugins => exact searchPlugins_names_mono w s x h
  | unloadAllBackends => exact h

theorem run_names_mono (w : World) (s : QtIVIServiceManager) (ops : List Op) (x : String)
    (h : x ∈ s.m_interfaceNames) : x ∈ (run w s ops).m_interfaceNames := by
  induction ops generalizing s with
  | nil => exact h
  | cons op rest ih => exact ih _ (step_names_mono w s op x h)

/-! ## The scan registration -/

theorem Backend.afterIndex_of_hasKey (b : Backend) (key : String)
    (h : b.hasKey key = true) : b.afterIndex key = b := by
  unfold Backend.hasKey at h
  cases hl : List.lookup key b.metaData with
  | none => rw [hl] at h; cases h
  | some v =>
    unfold Backend.afterIndex
    rw [QVariantMap.index_snd_of_lookup _ _ v hl]

theorem scannedBackend_interfaces_value (fileName : String) (metaData : QJsonObject) :
    QVariantMap.value (scannedBackend fileName metaData).metaData "interfaces" =
      QVariantMap.value (backendMetaDataOf metaData) "interfaces" := by
  simp only [scannedBackend, QVariantMap.value]
  rw [QVariantMap.lookup_insert_ne _ _ _ _ (by decide)]

theorem scannedBackend_fileName (fileName : String) (metaData : QJsonObject) :
    (scannedBackend fileName metaData).fileName = fileName := by
  simp only [scannedBackend, Backend.fileName, QVariantMap.value]
  rw [QVariantMap.lookup_insert_self]
  rfl

theorem hasInterfacesList_lookup (metaData : QJsonObject)
    (h : hasInterfacesList metaData = true) :
    ∃ v, List.lookup "interfaces" (backendMetaDataOf metaData) = some v ∧
      v.isNull = false ∧ v.toList.isEmpty = false ∧ v.toStringList ≠ [] := by
  unfold hasInterfacesList QVariantMap.value at h
  cases hl : List.lookup "interfaces" (backendMetaDataOf metaData) with
  | none => rw [hl] at h; cases h
  | some v =>
    rw [hl] at h
    refine ⟨v, rfl, ?_⟩
    cases v with
    | list l => cases l <;> simp_all [QVariant.isNull, QVariant.toList, QVariant.toStringList]
    | stringList l =>
      cases l <;> simp_all [QVariant.isNull, QVariant.toList, QVariant.toStringList]
    | _ => simp at h

theorem scannedBackend_hasKey_interfaces (fileName : String) (metaData : QJsonObject)
    (h : hasInterfacesList metaData = true) :
    (scannedBackend fileName metaData).hasKey "interfaces" = true := by
  obtain ⟨v, hv, _⟩ := hasInterfacesList_lookup metaData h
  simp only [Backend.hasKey, scannedBackend]
  rw [QVariantMap.lookup_insert_ne _ _ _ _ (by decide), hv]
  rfl

theorem scannedBackend_hasKey_fileName (fileName : String) (metaData : QJsonObject) :
    (scannedBackend fileName metaData).hasKey "fileName" = true := by
  simp only [Backend.hasKey, scannedBackend]
  rw [QVariantMap.lookup_insert_self]
  rfl

theorem scannedBackend_interfaces_ne_nil (fileName : String) (metaData : QJsonObject)
    (h : hasInterfacesList metaData = true) :
    (scannedBackend fileName metaData).interfaces ≠ [] := by
  obtain ⟨v, hv, _, _, hne⟩ := hasInterfacesList_lookup metaData h
  simp only [Backend.interfaces]
  rw [scannedBackend_interfaces_value]
  simp only [QVariantMap.value, hv]
  exact hne

theorem registerBackend_unfold (s : QtIVIServiceManager) (fileName : String)
    (metaData : QJsonObject) :
    registerBackend s fileName metaData =
      if (QVariantMap.index (backendMetaDataOf metaData) "interfaces").1.isNull ||
          (QVariantMap.index (QVariantMap.index (backendMetaDataOf metaData) "interfaces").2
            "interfaces").1.toList.isEmpty then
        { s with trace := s.trace ++
            [Event.diagnostic Diagnostic.malformedMetaData fileName] }
      else
        addBackend s
          ⟨QVariantMap.insert
            (QVariantMap.index (QVariantMap.index (backendMetaDataOf metaData) "interfaces").2
              "interfaces").2 "fileName" (QVariant.string fileName), none, none, none⟩ :=
  rfl

theorem registerBackend_wellFormed (s : QtIVIServiceManager) (fileName : String)
    (metaData : QJsonObject) (h : hasInterfacesList metaData = true) :
    registerBackend s fileName metaData = addBackend s (scannedBackend fileName metaData) := by
  obtain ⟨v, hv, hnull, hempty, _⟩ := hasInterfacesList_lookup metaData h
  have hidx : QVariantMap.index (backendMetaDataOf metaData) "interfaces" =
      (v, backendMetaDataOf metaData) := by
    unfold QVariantMap.index
    rw [hv]
  rw [registerBackend_unfold]
  simp only [hidx, hnull, hempty, scannedBackend]
  simp

theorem registerBackend_malformed (s : QtIVIServiceManager) (fileName : String)
    (metaData : QJsonObject) (h : hasInterfacesList metaData = false) :
    registerBackend s fileName metaData =
      { s with trace := s.trace ++
          [Event.diagnostic Diagnostic.malformedMetaData fileName] } := by
  rw [registerBackend_unfold]
  unfold hasInterfacesList QVariantMap.value at h
  cases hl : List.lookup "interfaces" (backendMetaDataOf metaData) with
  | none =>
    have hidx : (QVariantMap.index (backendMetaDataOf metaData) "interfaces").1 =
        QVariant.invalid := by
      unfold QVariantMap.index
      rw [hl]
    simp [hidx, QVariant.isNull]
  | some v =>
    rw [hl] at h
    have hidx : QVariantMap.index (backendMetaDataOf metaData) "interfaces" =
        (v, backendMetaDataOf metaData) := by
      unfold QVariantMap.index
      rw [hl]
    simp only [hidx]
    cases v with
    | list l => cases l <;> simp_all [QVariant.isNull, QVariant.toList]
    | stringList l => cases l <;> simp_all [QVariant.isNull, QVariant.toList]
    | serviceInterface p => cases p <;> simp [QVariant.isNull, QVariant.toList]
    | _ => simp [QVariant.isNull, QVariant.toList]

theorem addBackend_scannedBackend_backends (s : QtIVIServiceManager) (fileName : String)
    (metaData : QJsonObject) (h : hasInterfacesList metaData = true) :
    (addBackend s (scannedBackend fileName metaData)).m_backends =
      s.m_backends ++ [scannedBackend fileName metaData] := by
  rw [addBackend_backends,
    Backend.afterIndex_of_hasKey _ _ (scannedBackend_hasKey_interfaces fileName metaData h)]

theorem registerAll_append (s : QtIVIServiceManager) (cs1 cs2 : List (String × QJsonObject)) :
    registerAll s (cs1 ++ cs2) = registerAll (registerAll s cs1) cs2 := by
  induction cs1 generalizing s with
  | nil => rfl
  | cons c rest ih => exact ih _

theorem registerAll_backends (s : QtIVIServiceManager) (cs : List (String × QJsonObject)) :
    (registerAll s cs).m_backends =
      s.m_backends ++
        (cs.filter (fun c => hasInterfacesList c.2)).map
          (fun c => scannedBackend c.1 c.2) := by
  induction cs generalizing s with
  | nil => simp [registerAll]
  | cons c rest ih =>
    simp only [registerAll]
    rw [ih]
    cases h : hasInterfacesList c.2
    · rw [registerBackend_malformed s c.1 c.2 h]
      simp [List.filter_cons, h]
    · rw [registerBackend_wellFormed s c.1 c.2 h,
        addBackend_scannedBackend_backends s c.1 c.2 h]
      simp [List.filter_cons, h]

theorem searchDir_eq (w : World) (pluginDir path : String) (files : List String)
    (s : QtIVIServiceManager) :
    searchDir w pluginDir path files s =
      registerAll s (dirCandidates w pluginDir path files) := by
  induction files generalizing s with
  | nil => rfl
  | cons f rest ih =>
    simp only [searchDir, dirCandidates, List.map_cons, registerAll]
    exact ih _

theorem searchLoop_snd (w : World) (dirs : List String) (found : Bool)
    (s : QtIVIServiceManager) :
    (searchLoop w dirs found s).2 = registerAll s (candidatesOf w dirs) := by
  induction dirs generalizing found s with
  | nil => rfl
  | cons d rest ih =>
    simp only [searchLoop, candidatesOf]
    cases hd : w.pluginDirExists (d ++ w.separator ++ "qtivi")
    · simp [ih]
    · simp [ih, searchDir_eq, registerAll_append]

theorem searchPlugins_backends (w : World) (s : QtIVIServiceManager) :
    (searchPlugins w s).m_backends = (registerAll s (scanCandidates w)).m_backends ∧
    (searchPlugins w s).m_interfaceNames =
      (registerAll s (scanCandidates w)).m_interfaceNames ∧
    (searchPlugins w s).loadersConstructed =
      (registerAll s (scanCandidates w)).loadersConstructed := by
  unfold searchPlugins scanCandidates
  simp only [searchLoop_snd]
  split <;> exact ⟨rfl, rfl, rfl⟩

/-! ## Every reachable manager is consistent -/

theorem load_notLive_result (w : World) (b : Backend) (k : Nat) (t : List Event)
    (h : b.interface = none) :
    (loadServiceBackendInterface w b k t).result =
      qobject_cast (w.loaderInstance k b.fileName) := by
  rw [load_notLive w b k t h]
  simp only [Backend.fileName]
  cases qobject_cast (w.loaderInstance k (QVariantMap.value b.metaData "fileName").toString)
    <;> rfl

theorem load_notLive_backend (w : World) (b : Backend) (k : Nat) (t : List Event)
    (h : b.interface = none) (hkey : b.hasKey "fileName" = true) :
    (loadServiceBackendInterface w b k t).backend =
      match qobject_cast (w.loaderInstance k b.fileName) with
      | some o => { b with interface := some o, loader := some ⟨k, b.fileName⟩ }
      | none => b := by
  rw [load_notLive w b k t h]
  simp only [Backend.fileName, Backend.afterIndex_of_hasKey b _ hkey]
  cases qobject_cast (w.loaderInstance k (QVariantMap.value b.metaData "fileName").toString)
    <;> rfl

theorem load_ok (w : World) (b : Backend) (k : Nat) (t : List Event) (h : b.ok) :
    (loadServiceBackendInterface w b k t).backend.ok := by
  cases hi : b.interface with
  | some i => rw [load_live w b k t i hi]; exact h
  | none =>
    obtain ⟨hk, hne, hnl, hlo⟩ := h
    obtain ⟨hf, hl, ho⟩ := hnl hi
    rw [load_notLive_backend w b k t hi hf]
    cases qobject_cast (w.loaderInstance k b.fileName) with
    | none => exact ⟨hk, hne, hnl, hlo⟩
    | some o =>
      refine ⟨hk, hne, fun hc => ?_, fun _ => ho⟩
      cases hc

theorem findLoop_ok (w : World) (n : String) (bs : List Backend) (k : Nat) (t : List Event)
    (h : ∀ b ∈ bs, b.ok) : ∀ b ∈ (findLoop w n bs k t).backends, b.ok := by
  induction bs generalizing k t with
  | nil => intro b hb; simp [findLoop] at hb
  | cons a rest ih =>
    have ha : a.ok := h a (List.mem_cons_self _ _)
    have hr : ∀ b ∈ rest, b.ok := fun b hb => h b (List.mem_cons_of_mem _ hb)
    have hidx : a.afterIndex "interfaces" = a := Backend.afterIndex_of_hasKey a _ ha.1
    rw [findLoop_cons, hidx]
    intro b hb
    cases hp : Backend.provides n a
    · simp only [hp, Bool.false_eq_true, if_false, List.mem_cons] at hb
      rcases hb with hb | hb
      · rw [hb]; exact ha
      · exact ih k t hr b hb
    · simp only [hp, if_true, List.mem_cons] at hb
      rcases hb with hb | hb
      · rw [hb]; exact load_ok w a k t ha
      · exact ih _ _ hr b hb

theorem findLoop_names (w : World) (n : String) (bs : List Backend) (k : Nat)
    (t : List Event) (names : Finset String)
    (h : ∀ b ∈ bs, ∀ x ∈ b.interfaces, x ∈ names) :
    ∀ b ∈ (findLoop w n bs k t).backends, ∀ x ∈ b.interfaces, x ∈ names := by
  intro b hb x hx
  have hmap := findLoop_interfaces w n bs k t
  have hmem : b.interfaces ∈ (findLoop w n bs k t).backends.map Backend.interfaces :=
    List.mem_map_of_mem _ hb
  rw [hmap] at hmem
  obtain ⟨a, ha, hab⟩ := List.mem_map.mp hmem
  exact h a ha x (hab ▸ hx)

theorem consistent_empty : Consistent QtIVIServiceManager.empty := by
  intro b hb
  cases hb

theorem consistent_find (w : World) (s : QtIVIServiceManager) (n : String)
    (h : Consistent s) : Consistent (findServiceByInterface w s n).2 := by
  intro b hb
  exact ⟨findLoop_ok w n _ _ _ (fun a ha => (h a ha).1) b hb,
    findLoop_names w n _ _ _ s.m_interfaceNames (fun a ha => (h a ha).2) b hb⟩

theorem consistent_addBackend (s : QtIVIServiceManager) (b : Backend) (hb : b.ok)
    (h : Consistent s) : Consistent (addBackend s b) := by
  intro a ha
  rw [addBackend_backends, Backend.afterIndex_of_hasKey b _ hb.1, List.mem_append] at ha
  rcases ha with ha | ha
  · exact ⟨(h a ha).1, fun x hx => (addBackend_names s b x).mpr (Or.inl ((h a ha).2 x hx))⟩
  · simp only [List.mem_singleton] at ha
    subst ha
    exact ⟨hb, fun x hx => (addBackend_names s a x).mpr (Or.inr hx)⟩

theorem scannedBackend_ok (fileName : String) (metaData : QJsonObject)
    (h : hasInterfacesList metaData = true) : (scannedBackend fileName metaData).ok :=
  ⟨scannedBackend_hasKey_interfaces fileName metaData h,
    scannedBackend_interfaces_ne_nil fileName metaData h,
    fun _ => ⟨scannedBackend_hasKey_fileName fileName metaData, rfl, rfl⟩,
    fun _ => rfl⟩

theorem consistent_registerBackend (s : QtIVIServiceManager) (fileName : String)
    (metaData : QJsonObject) (h : Consistent s) :
    Consistent (registerBackend s fileName metaData) := by
  cases hw : hasInterfacesList metaData
  · rw [registerBackend_malformed s fileName metaData hw]
    exact h
  · rw [registerBackend_wellFormed s fileName metaData hw]
    exact consistent_addBackend s _ (scannedBackend_ok fileName metaData hw) h

theorem directBackend_ok (i : QObject) (o : Option QObject) (l : List String)
    (hl : l ≠ []) :
    (⟨QVariantMap.insert [] "interfaces" (QVariant.stringList l), some i, o, none⟩ :
      Backend).ok := by
  refine ⟨rfl, ?_, fun hc => ?_, fun hc => ?_⟩
  · simpa [Backend.interfaces, QVariantMap.value, QVariantMap.insert, List.lookup,
      QVariant.toStringList] using hl
  · cases hc
  · exact absurd rfl hc

theorem consistent_registerService (s : QtIVIServiceManager) (o : Option QObject)
    (l : List String) (h : Consistent s) : Consistent (registerService s o l).2 := by
  rcases registerService_cases s o l with hf | ⟨i, _, hne, hadd⟩
  · rw [hf]; exact h
  · rw [hadd]
    exact consistent_addBackend s _ (directBackend_ok i o l hne) h

theorem consistent_registerAll (s : QtIVIServiceManager) (cs : List (String × QJsonObject))
    (h : Consistent s) : Consistent (registerAll s cs) := by
  induction cs generalizing s with
  | nil => exact h
  | cons c rest ih => exact ih _ (consistent_registerBackend s c.1 c.2 h)

theorem consistent_searchPlugins (w : World) (s : QtIVIServiceManager) (h : Consistent s) :
    Consistent (searchPlugins w s) := by
  have hr := consistent_registerAll s (scanCandidates w) h
  obtain ⟨hb, hn, _⟩ := searchPlugins_backends w s
  intro b hbm
  rw [hb] at hbm
  rw [hn]
  exact hr b hbm

theorem consistent_unloadAllBackends (s : QtIVIServiceManager) :
    Consistent (unloadAllBackends s) := by
  intro b hb
  cases hb

theorem consistent_step (w : World) (s : QtIVIServiceManager) (op : Op) (h : Consistent s) :
    Consistent (step w s op) := by
  cases op with
  | findServiceByInterface n => exact consistent_find w s n h
  | registerService o l => exact consistent_registerService s o l h
  | registerBackend f md => exact consistent_registerBackend s f md h
  | searchPlugins => exact consistent_searchPlugins w s h
  | unloadAllBackends => exact consistent_unloadAllBackends s

theorem consistent_run (w : World) (s : QtIVIServiceManager) (ops : List Op)
    (h : Consistent s) : Consistent (run w s ops) := by
  induction ops generalizing s with
  | nil => exact h
  | cons op rest ih => exact ih _ (consistent_step w s op h)

/-! ## What the scan registration and the next lookup do to the trace -/

theorem addBackend_instanceCalls (s : QtIVIServiceManager) (b : Backend) :
    instanceCalls (addBackend s b).trace = instanceCalls s.trace ∧
    (addBackend s b).loadersConstructed = s.loadersConstructed := by
  refine ⟨?_, rfl⟩
  unfold addBackend
  simp [instanceCalls_append, instanceCalls]

theorem registerBackend_instanceCalls (s : QtIVIServiceManager) (fileName : String)
    (metaData : QJsonObject) :
    instanceCalls (registerBackend s fileName metaData).trace = instanceCalls s.trace ∧
    (registerBackend s fileName metaData).loadersConstructed = s.loadersConstructed := by
  cases hw : hasInterfacesList metaData
  · rw [registerBackend_malformed s fileName metaData hw]
    simp [instanceCalls_append, instanceCalls]
  · rw [registerBackend_wellFormed s fileName metaData hw]
    exact addBackend_instanceCalls s _

theorem findLoop_single_notLive (w : World) (n : String) (b : Backend) (k : Nat)
    (t : List Event) (hp : Backend.provides n b = true) (hi : b.interface = none)
    (hk : b.hasKey "interfaces" = true) :
    (findLoop w n [b] k t).list = [⟨qobject_cast (w.loaderInstance k b.fileName)⟩] ∧
    (findLoop w n [b] k t).loadersConstructed = k + 1 ∧
    instanceCalls (findLoop w n [b] k t).trace = instanceCalls t ++ [⟨k, b.fileName⟩] ∧
    (findLoop w n [b] k t).backends = [(loadServiceBackendInterface w b k t).backend] := by
  rw [findLoop_cons, Backend.afterIndex_of_hasKey b _ hk]
  simp only [hp, if_true, findLoop]
  refine ⟨?_, ?_, ?_, trivial⟩
  · rw [load_notLive_result w b k t hi]
  · rw [load_count]; simp [Backend.notLive, hi]
  · rw [load_instanceCalls]; simp [Backend.notLive, hi]

/-! ## Invariants of the entries of every reachable manager -/

theorem findLoop_forall (P : Backend → Prop)
    (hload : ∀ (w : World) (b : Backend) (k : Nat) (t : List Event), b.ok → P b →
      P (loadServiceBackendInterface w b k t).backend)
    (w : World) (n : String) (bs : List Backend) (k : Nat) (t : List Event)
    (h : ∀ b ∈ bs, b.ok ∧ P b) : ∀ b ∈ (findLoop w n bs k t).backends, b.ok ∧ P b := by
  induction bs generalizing k t with
  | nil => intro b hb; simp [findLoop] at hb
  | cons a rest ih =>
    have ha := h a (List.mem_cons_self _ _)
    have hr : ∀ b ∈ rest, b.ok ∧ P b := fun b hb => h b (List.mem_cons_of_mem _ hb)
    have hidx : a.afterIndex "interfaces" = a := Backend.afterIndex_of_hasKey a _ ha.1.1
    rw [findLoop_cons, hidx]
    intro b hb
    cases hp : Backend.provides n a
    · simp only [hp, Bool.false_eq_true, if_false, List.mem_cons] at hb
      rcases hb with hb | hb
      · rw [hb]; exact ha
      · exact ih k t hr b hb
    · simp only [hp, if_true, List.mem_cons] at hb
      rcases hb with hb | hb
      · rw [hb]; exact ⟨load_ok w a k t ha.1, hload w a k t ha.1 ha.2⟩
      · exact ih _ _ hr b hb

theorem registerAll_forall (P : Backend → Prop)
    (hscan : ∀ (f : String) (md : QJsonObject), hasInterfacesList md = true →
      P (scannedBackend f md))
    (s : QtIVIServiceManager) (cs : List (String × QJsonObject))
    (h : ∀ b ∈ s.m_backends, b.ok ∧ P b) :
    ∀ b ∈ (registerAll s cs).m_backends, b.ok ∧ P b := by
  intro b hb
  rw [registerAll_backends, List.mem_append] at hb
  rcases hb with hb | hb
  · exact h b hb
  · obtain ⟨c, hc, hcb⟩ := List.mem_map.mp hb
    have hw : hasInterfacesList c.2 = true := by
      have := (List.mem_filter.mp hc).2
      simpa using this
    rw [← hcb]
    exact ⟨scannedBackend_ok c.1 c.2 hw, hscan c.1 c.2 hw⟩

theorem step_forall (P : Backend → Prop)
    (hload : ∀ (w : World) (b : Backend) (k : Nat) (t : List Event), b.ok → P b →
      P (loadServiceBackendInterface w b k t).backend)
    (hscan : ∀ (f : String) (md : QJsonObject), hasInterfacesList md = true →
      P (scannedBackend f md))
    (hdirect : ∀ (i : QObject) (o : Option QObject) (l : List String),
      qobject_cast o = some i → l ≠ [] →
      P ⟨QVariantMap.insert [] "interfaces" (QVariant.stringList l), some i, o, none⟩)
    (w : World) (s : QtIVIServiceManager) (op : Op)
    (h : ∀ b ∈ s.m_backends, b.ok ∧ P b) :
    ∀ b ∈ (step w s op).m_backends, b.ok ∧ P b := by
  cases op with
  | findServiceByInterface n => exact findLoop_forall P hload w n _ _ _ h
  | registerService o l =>
    rcases registerService_cases s o l with hf | ⟨i, hc, hne, hadd⟩
    · simp only [step, hf]; exact h
    · simp only [step, hadd]
      intro b hb
      rw [addBackend_backends,
        Backend.afterIndex_of_hasKey _ _ (directBackend_ok i o l hne).1,
        List.mem_append] at hb
      rcases hb with hb | hb
      · exact h b hb
      · simp only [List.mem_singleton] at hb
        rw [hb]
        exact ⟨directBackend_ok i o l hne, hdirect i o l hc hne⟩
  | registerBackend f md =>
    exact registerAll_forall P hscan s [(f, md)] h
  | searchPlugins =>
    intro b hb
    simp only [step] at hb
    rw [(searchPlugins_backends w s).1] at hb
    exact registerAll_forall P hscan s _ h b hb
  | unloadAllBackends =>
    intro b hb
    cases hb

theorem run_forall (P : Backend → Prop)
    (hload : ∀ (w : World) (b : Backend) (k : Nat) (t : List Event), b.ok → P b →
      P (loadServiceBackendInterface w b k t).backend)
    (hscan : ∀ (f : String) (md : QJsonObject), hasInterfacesList md = true →
      P (scannedBackend f md))
    (hdirect : ∀ (i : QObject) (o : Option QObject) (l : List String),
      qobject_cast o = some i → l ≠ [] →
      P ⟨QVariantMap.insert [] "interfaces" (QVariant.stringList l), some i, o, none⟩)
    (w : World) (s : QtIVIServiceManager) (ops : List Op)
    (h : ∀ b ∈ s.m_backends, b.ok ∧ P b) :
    ∀ b ∈ (run w s ops).m_backends, b.ok ∧ P b := by
  induction ops generalizing s with
  | nil => exact h
  | cons op rest ih => exact ih _ (step_forall P hload hscan hdirect w s op h)

theorem load_liveHasSource (w : World) (b : Backend) (k : Nat) (t : List Event)
    (hok : b.ok) (h : b.liveHasSource) :
    (loadServiceBackendInterface w b k t).backend.liveHasSource := by
  cases hi : b.interface with
  | some i => rw [load_live w b k t i hi]; exact h
  | none =>
    rw [load_notLive_backend w b k t hi (hok.2.2.1 hi).1]
    cases qobject_cast (w.loaderInstance k b.fileName) with
    | none => exact h
    | some o => exact fun _ => Or.inl (by simp)

theorem reachable_liveHasSource (w : World) (ops : List Op) :
    ∀ b ∈ (run w QtIVIServiceManager.empty ops).m_backends, b.ok ∧ b.liveHasSource := by
  apply run_forall Backend.liveHasSource load_liveHasSource
  · intro f md _ hc
    exact absurd rfl hc
  · intro i o l hc _ _
    right
    cases o with
    | none => simp [qobject_cast] at hc
    | some x => simp
  · intro b hb
    cases hb

/-! ## The frame of the lookup -/

theorem Backend.loadedFrom_fields (n : String) (b b2 : Backend)
    (h : Backend.loadedFrom n b b2) :
    b2.metaData = b.metaData ∧ b2.interfaceObject = b.interfaceObject ∧
    (Backend.provides n b = false ∨ b.interface ≠ none → b2 = b) := by
  rcases h with h | ⟨hp, hi, o, l, h⟩
  · subst h
    exact ⟨rfl, rfl, fun _ => rfl⟩
  · subst h
    refine ⟨rfl, rfl, fun hc => ?_⟩
    rcases hc with hc | hc
    · rw [hp] at hc
      cases hc
    · exact absurd hi hc

theorem load_loadedFrom (w : World) (n : String) (b : Backend) (k : Nat) (t : List Event)
    (hok : b.ok) (hp : Backend.provides n b = true) :
    Backend.loadedFrom n b (loadServiceBackendInterface w b k t).backend := by
  cases hi : b.interface with
  | some i => rw [load_live w b k t i hi]; exact Or.inl rfl
  | none =>
    rw [load_notLive_backend w b k t hi (hok.2.2.1 hi).1]
    cases qobject_cast (w.loaderInstance k b.fileName) with
    | none => exact Or.inl rfl
    | some o => exact Or.inr ⟨hp, hi, o, _, rfl⟩

theorem findLoop_frame (w : World) (n : String) (bs : List Backend) (k : Nat)
    (t : List Event) (h : ∀ b ∈ bs, b.ok) (i : Nat) (b : Backend) (hb : bs[i]? = some b) :
    ∃ b2, (findLoop w n bs k t).backends[i]? = some b2 ∧ Backend.loadedFrom n b b2 := by
  induction bs generalizing k t i with
  | nil => simp at hb
  | cons a rest ih =>
    have ha : a.ok := h a (List.mem_cons_self _ _)
    have hr : ∀ x ∈ rest, x.ok := fun x hx => h x (List.mem_cons_of_mem _ hx)
    have hidx : a.afterIndex "interfaces" = a := Backend.afterIndex_of_hasKey a _ ha.1
    rw [findLoop_cons, hidx]
    cases hp : Backend.provides n a
    · simp only [Bool.false_eq_true, if_false]
      cases i with
      | zero =>
        simp only [List.getElem?_cons_zero, Option.some.injEq] at hb
        subst hb
        exact ⟨a, by simp, Or.inl rfl⟩
      | succ j =>
        simp only [List.getElem?_cons_succ] at hb ⊢
        exact ih k t hr j hb
    · simp only [if_true]
      cases i with
      | zero =>
        simp only [List.getElem?_cons_zero, Option.some.injEq] at hb
        subst hb
        exact ⟨_, by simp, load_loadedFrom w n a k t ha hp⟩
      | succ j =>
        simp only [List.getElem?_cons_succ] at hb ⊢
        exact ih _ _ hr j hb

theorem findLoop_map_eq {α : Type} (f : Backend → α) (w : World) (n : String)
    (bs : List Backend) (k : Nat) (t : List Event) (h : ∀ b ∈ bs, b.ok)
    (hf : ∀ b b2 : Backend, Backend.loadedFrom n b b2 → f b2 = f b) :
    (findLoop w n bs k t).backends.map f = bs.map f := by
  apply List.ext_getElem?
  intro i
  simp only [List.getElem?_map]
  cases hb : bs[i]? with
  | none =>
    have hlen : bs.length ≤ i := by
      by_contra hc
      rw [List.getElem?_eq_getElem (by omega)] at hb
      cases hb
    rw [List.getElem?_eq_none (by rw [findLoop_length]; exact hlen)]
  | some b =>
    obtain ⟨b2, hb2, hfrom⟩ := findLoop_frame w n bs k t h i b hb
    rw [hb2]
    simp [hf b b2 hfrom]

/-! ## When the teardown is defined -/

theorem deletedResources_append (t u : List Event) :
    deletedResources (t ++ u) = deletedResources t ++ deletedResources u := by
  induction t with
  | nil => rfl
  | cons e rest ih => cases e <;> simp [deletedResources, ih]

theorem deletedResources_releaseBackend (b : Backend) :
    deletedResources (releaseBackend b) = b.resource.toList := by
  unfold releaseBackend Backend.resource
  cases b.loader with
  | some l => simp [deletedResources]
  | none =>
    cases b.interfaceObject with
    | some o => simp [deletedResources]
    | none => simp [deletedResources]

theorem releaseDefined_of_not_deleted (b : Backend) (t : List Event)
    (h : ∀ r, b.resource = some r → r ∉ deletedResources t) : releaseDefined b t = true := by
  unfold releaseDefined
  unfold Backend.resource at h
  cases hl : b.loader with
  | some l =>
    rw [hl] at h
    simpa using h _ rfl
  | none =>
    rw [hl] at h
    cases ho : b.interfaceObject with
    | some o =>
      rw [ho] at h
      simpa using h _ rfl
    | none => rfl

theorem unloadLoopChecked_safe (fuel : Nat) (pre rest : List Backend) (t : List Event)
    (hnd : (rest.filterMap Backend.resource).Nodup)
    (hfresh : ∀ r ∈ rest.filterMap Backend.resource, r ∉ deletedResources t) :
    unloadLoopChecked fuel pre.length (pre ++ rest) t =
      some (unloadLoop fuel pre.length (pre ++ rest) t) := by
  induction fuel generalizing pre rest t with
  | zero => rfl
  | succ f ih =>
    match rest, hnd, hfresh with
    | [], _, _ =>
      have hlt : ¬ pre.length < (pre ++ ([] : List Backend)).length := by simp
      simp only [unloadLoopChecked, unloadLoop, hlt, dite_false]
    | a :: rest1, hnd1, hfresh1 =>
      have hlt : pre.length < (pre ++ a :: rest1).length := by simp
      have hget : (pre ++ a :: rest1).get ⟨pre.length, hlt⟩ = a := by
        simp only [List.get_eq_getElem]
        rw [List.getElem_append_right (Nat.le_refl _)]
        simp
      have hdef : releaseDefined a t = true := by
        apply releaseDefined_of_not_deleted
        intro r hr
        apply hfresh1 r
        simp only [List.filterMap_cons, hr]
        exact List.mem_cons_self _ _
      simp only [unloadLoopChecked, unloadLoop, hlt, dite_true, hget, hdef, if_true]
      rw [List.eraseIdx_append_of_length_le (Nat.le_refl _)]
      simp only [Nat.sub_self, List.eraseIdx_cons_zero]
      cases rest1 with
      | nil =>
        simp only [List.append_nil]
        rw [unloadLoop_done _ _ _ _ (Nat.le_succ _)]
        cases f with
        | zero => rfl
        | succ g =>
          have hn : ¬ pre.length + 1 < pre.length := by omega
          simp only [unloadLoopChecked, hn, dite_false]
      | cons c rest2 =>
        have hlen : pre.length + 1 = (pre ++ [c]).length := by simp
        have happ : pre ++ c :: rest2 = (pre ++ [c]) ++ rest2 := by simp
        rw [hlen, happ]
        apply ih
        · have h1 : ((c :: rest2).filterMap Backend.resource).Nodup := by
            cases hra : a.resource with
            | none => simpa [List.filterMap_cons, hra] using hnd1
            | some ra =>
              have := hnd1
              simp only [List.filterMap_cons, hra] at this
              exact (List.nodup_cons.mp this).2
          cases hrc : c.resource with
          | none => simpa [List.filterMap_cons, hrc] using h1
          | some rc =>
            simp only [List.filterMap_cons, hrc] at h1
            exact (List.nodup_cons.mp h1).2
        · intro r hr
          have hmem_c : r ∈ (c :: rest2).filterMap Backend.resource := by
            cases hrc : c.resource with
            | none => simpa [List.filterMap_cons, hrc] using hr
            | some rc =>
              simp only [List.filterMap_cons, hrc]
              exact List.mem_cons_of_mem _ hr
          have hmem_a : r ∈ (a :: c :: rest2).filterMap Backend.resource := by
            cases hra : a.resource with
            | none => simpa [List.filterMap_cons, hra] using hmem_c
            | some ra =>
              rw [List.filterMap_cons, hra]
              exact List.mem_cons_of_mem _ hmem_c
          rw [deletedResources_append, deletedResources_releaseBackend, List.mem_append]
          rintro (hold | hnew)
          · exact hfresh1 r hmem_a hold
          · cases hra : a.resource with
            | none => rw [hra] at hnew; simp at hnew
            | some ra =>
              rw [hra] at hnew
              simp only [Option.toList_some, List.mem_singleton] at hnew
              subst hnew
              have := hnd1
              rw [List.filterMap_cons, hra] at this
              exact (List.nodup_cons.mp this).1 hmem_c

theorem teardown_of_safe (s : QtIVIServiceManager) (h : TeardownSafe s) :
    teardown s = some (unloadAllBackends s) := by
  have hfresh : ∀ r ∈ s.m_backends.filterMap Backend.resource,
      r ∉ deletedResources (s.trace ++ [Event.beginResetModel s.snapshot]) := by
    intro r hr
    rw [deletedResources_append]
    simpa [deletedResources] using h.2 r hr
  have hloop := unloadLoopChecked_safe s.m_backends.length [] s.m_backends
    (s.trace ++ [Event.beginResetModel s.snapshot]) h.1 hfresh
  simp only [List.length_nil, List.nil_append] at hloop
  unfold teardown
  rw [hloop]
  rfl

theorem teardownSafe_of_no_entries (s : QtIVIServiceManager) (h : s.m_backends = []) :
    TeardownSafe s := by
  unfold TeardownSafe
  rw [h]
  exact ⟨List.nodup_nil, fun r hr => by simp at hr⟩

theorem teardown_defined_on_examples :
    teardown QtIVIServiceManager.empty = some (unloadAllBackends QtIVIServiceManager.empty) ∧
    teardown directX = some (unloadAllBackends directX) ∧
    teardown directXY = some (unloadAllBackends directXY) ∧
    teardown (findServiceByInterface worldLoads scannedTwice "p.Q").2 =
      some (unloadAllBackends (findServiceByInterface worldLoads scannedTwice "p.Q").2) :=
  ⟨teardown_of_safe _ (by unfold TeardownSafe; decide),
    teardown_of_safe _ (by unfold TeardownSafe; decide),
    teardown_of_safe _ (by unfold TeardownSafe; decide),
    teardown_of_safe _ (by unfold TeardownSafe; decide)⟩

/-! ## The claims -/

/-- C1 (the code diverges): a matching entry whose backend cannot be obtained is not
skipped. When the plugin of the only matching entry does not load, or loads but fails the
cast, `findServiceByInterface` still returns one proxy, wrapping a null pointer, and the
entry stays without a live interface. -/
theorem findServiceByInterface_failed_load_not_skipped :
    (findServiceByInterface worldNoLoad scannedPQ "p.Q").1 = [⟨none⟩] ∧
    (findServiceByInterface worldNoCast scannedPQ "p.Q").1 = [⟨none⟩] ∧
    (findServiceByInterface worldNoLoad scannedPQ "p.Q").2.m_backends.map
      (fun b => b.interface) = [none] ∧
    (scannedPQ.m_backends.filter
      (fun b => Backend.provides "p.Q" b && !b.notLive)).length = 0 := by
  decide

/-- C2 (the code diverges): teardown does not release every entry. With the two directly
registered backends X and Y only X is deleted, and with two loaded plugins only the first
loader is unloaded: the loop removes entry `i` with `takeAt(i)` and then increments `i`, so
every second entry is skipped and dropped by `clear()` unreleased. -/
theorem unloadAllBackends_skips_every_second_entry :
    deletedObjects (unloadAllBackends directXY).trace = [backendX] ∧
    directXY.m_backends.map (fun b => b.interfaceObject) = [some backendX, some backendY] ∧
    unloadedLoaders
      (unloadAllBackends (findServiceByInterface worldLoads scannedTwice "p.Q").2).trace =
        [⟨0, "/plugins/qtivi/libpq.so"⟩] ∧
    (findServiceByInterface worldLoads scannedTwice "p.Q").2.m_backends.map
      (fun b => b.loader) =
        [some ⟨0, "/plugins/qtivi/libpq.so"⟩, some ⟨1, "/plugins/qtivi/libpq2.so"⟩] := by
  decide

/-- C3 (the code diverges): teardown leaves `m_interfaceNames` untouched, so `hasInterface`
answers after teardown exactly what it answered before; after registering X for `a.b.C`
and tearing down, `hasInterface("a.b.C")` is still true although no entry is left. -/
theorem unloadAllBackends_keeps_interfaceNames :
    (∀ (s : QtIVIServiceManager) (n : String),
      hasInterface (unloadAllBackends s) n = hasInterface s n) ∧
    hasInterface directX "a.b.C" = true ∧
    hasInterface (unloadAllBackends directX) "a.b.C" = true ∧
    (unloadAllBackends directX).m_backends.length = 0 := by
  refine ⟨fun s n => rfl, ?_, ?_, ?_⟩ <;> decide

/-- C5: `findServiceByInterface` returns its proxies in the order of the entries. The
proxies wrap, position by position, the interface pointers of the entries that list the
name; the call changes neither the number of entries nor the names any entry lists;
resolving over entries `bs1 ++ bs2` gives the proxies of `bs1` followed by those of `bs2`;
and `addBackend` puts a new entry behind all earlier ones. -/
theorem findServiceByInterface_insertion_order (w : World) (s : QtIVIServiceManager)
    (n : String) :
    (findServiceByInterface w s n).1.map (fun p => p.m_interface) =
      ((findServiceByInterface w s n).2.m_backends.filter (Backend.provides n)).map
        (fun b => b.interface) ∧
    (findServiceByInterface w s n).2.m_backends.map Backend.interfaces =
      s.m_backends.map Backend.interfaces ∧
    (findServiceByInterface w s n).1.length =
      (s.m_backends.filter (Backend.provides n)).length ∧
    (∀ bs1 bs2 : List Backend,
      (findServiceByInterface w { s with m_backends := bs1 ++ bs2 } n).1 =
        (findServiceByInterface w { s with m_backends := bs1 } n).1 ++
          (findServiceByInterface w
            { (findServiceByInterface w { s with m_backends := bs1 } n).2 with
              m_backends := bs2 } n).1) ∧
    (∀ b : Backend,
      (addBackend s b).m_backends = s.m_backends ++ [b.afterIndex "interfaces"]) := by
  refine ⟨findLoop_wraps w n _ _ _, findLoop_interfaces w n _ _ _,
    findLoop_list_length w n _ _ _, ?_, fun b => rfl⟩
  intro bs1 bs2
  simp [findServiceByInterface, findLoop_append]

/-- C6: lazy-load idempotence. Once an entry is live (its `interface` pointer is set, which
is what a successful load does), then through every later sequence of calls other than the
teardown the entry keeps that same pointer and loader; every `findServiceByInterface` call
constructs a loader, and calls `instance()`, only for the entries that list the name and
are not live, once each and with the file name of that entry; and the proxy returned for a
live matching entry wraps the stored object. A load that returns an object stores that
object in the entry, which makes the entry live. -/
theorem lazy_load_idempotent (w : World) (s : QtIVIServiceManager) (ops : List Op)
    (hops : ∀ op ∈ ops, op.isUnload = false) :
    (∀ (i : Nat) (b : Backend) (o : QObject), s.m_backends[i]? = some b →
      b.interface = some o →
      ∃ b2, (run w s ops).m_backends[i]? = some b2 ∧ b2.interface = some o ∧
        b2.loader = b.loader) ∧
    (∀ n : String,
      (findServiceByInterface w s n).2.loadersConstructed =
        s.loadersConstructed +
          (s.m_backends.filter (fun b => Backend.provides n b && b.notLive)).length ∧
      (instanceCalls (findServiceByInterface w s n).2.trace).map (fun l => l.fileName) =
        (instanceCalls s.trace).map (fun l => l.fileName) ++
          (s.m_backends.filter (fun b => Backend.provides n b && b.notLive)).map
            Backend.fileName) ∧
    (∀ (n : String) (i : Nat) (b : Backend) (o : QObject), s.m_backends[i]? = some b →
      b.interface = some o → Backend.provides n b = true →
      (findServiceByInterface w s n).1[((s.m_backends.take i).filter
          (Backend.provides n)).length]? = some ⟨some o⟩) ∧
    (∀ (b : Backend) (k : Nat) (t : List Event) (o : QObject),
      (loadServiceBackendInterface w b k t).result = some o →
      (loadServiceBackendInterface w b k t).backend.interface = some o) := by
  refine ⟨fun i b o hb ho => ?_, fun n => ⟨findLoop_count w n _ _ _,
    findLoop_instanceCalls w n _ _ _⟩, fun n i b o hb ho hp => ?_,
    fun b k t o hr => (load_result w b k t) ▸ hr⟩
  · obtain ⟨b2, hb2, hk⟩ := run_preserved w s ops hops i b hb
    exact ⟨b2, hb2, (hk.2.2 o ho).1, (hk.2.2 o ho).2⟩
  · have hlt : i < s.m_backends.length := by
      by_contra hge
      rw [List.getElem?_eq_none (by omega)] at hb
      cases hb
    have hbi : s.m_backends[i] = b := by
      rw [List.getElem?_eq_getElem hlt] at hb
      exact Option.some.inj hb
    have hsplit : s.m_backends = s.m_backends.take i ++ b :: s.m_backends.drop (i + 1) := by
      rw [← hbi, List.getElem_cons_drop _ _ hlt, List.take_append_drop]
    have hlive : (b.afterIndex "interfaces").interface = some o := ho
    simp only [findServiceByInterface]
    rw [hsplit, findLoop_append, findLoop_cons]
    simp only [hp, if_true]
    rw [load_live w _ _ _ o hlive]
    rw [← hsplit]
    rw [List.getElem?_append_right (by rw [findLoop_list_length])]
    rw [findLoop_list_length]
    simp

/-- Witness for C6: the plugin entry loaded by a first lookup keeps its object and loader
through later registrations and lookups, a second lookup calls `instance()` on no further
loader, and the proxy of the second lookup wraps the same object. -/
theorem lazy_load_idempotent_witness :
    (∃ b2, (run worldLoads loadedPQ laterCalls).m_backends[0]? = some b2 ∧
      b2.interface = some ⟨100, true⟩ ∧ b2.loader = loadedEntry.loader) ∧
    (instanceCalls (findServiceByInterface worldLoads loadedPQ "p.Q").2.trace).map
      (fun l => l.fileName) = ["/plugins/qtivi/libpq.so"] ∧
    (findServiceByInterface worldLoads loadedPQ "p.Q").1[0]? = some ⟨some ⟨100, true⟩⟩ :=
  ⟨(lazy_load_idempotent worldLoads loadedPQ laterCalls (by decide)).1 0 loadedEntry
      ⟨100, true⟩ rfl rfl,
    ((lazy_load_idempotent worldLoads loadedPQ laterCalls (by decide)).2.1 "p.Q").2,
    (lazy_load_idempotent worldLoads loadedPQ laterCalls (by decide)).2.2.1 "p.Q" 0
      loadedEntry ⟨100, true⟩ rfl rfl rfl⟩

/-- C7: after a successful registration, direct or scanned, `hasInterface` is true for every
interface name of the new entry, immediately and after any further sequence of
registrations, scans and lookups. -/
theorem hasInterface_after_registration (w : World) (s : QtIVIServiceManager)
    (ops : List Op) (hops : ∀ op ∈ ops, op.isUnload = false) :
    (∀ (X : Option QObject) (L : List String) (n : String),
      (registerService s X L).1 = true → n ∈ L →
      hasInterface (run w (registerService s X L).2 ops) n = true) ∧
    (∀ (fileName : String) (metaData : QJsonObject) (b : Backend) (n : String),
      (registerBackend s fileName metaData).m_backends = s.m_backends ++ [b] →
      n ∈ b.interfaces →
      hasInterface (run w (registerBackend s fileName metaData) ops) n = true) := by
  have _ := hops
  refine ⟨fun X L n hreg hn => ?_, fun fileName metaData b n hb hn => ?_⟩
  · rcases registerService_cases s X L with hf | ⟨i, _, _, hadd⟩
    · rw [hf] at hreg
      cases hreg
    · simp only [hasInterface, decide_eq_true_eq]
      apply run_names_mono
      rw [hadd, addBackend_names]
      right
      simpa [Backend.interfaces, QVariantMap.value, QVariantMap.insert, List.lookup,
        QVariant.toStringList] using hn
  · simp only [hasInterface, decide_eq_true_eq]
    apply run_names_mono
    rcases registerBackend_cases s fileName metaData with ⟨d, hd⟩ | ⟨e, he⟩
    · rw [hd] at hb
      have hlen := congrArg List.length hb
      simp at hlen
    · rw [he] at hb ⊢
      rw [addBackend_backends] at hb
      have hbe : e.afterIndex "interfaces" = b := by
        have := List.append_cancel_left hb
        simpa using this
      rw [addBackend_names]
      right
      rw [← hbe, Backend.afterIndex_interfaces] at hn
      exact hn

/-- Witness for C7: the names registered directly (`a.b.C`) and by a scan (`p.Q`) are
still known after further registrations and lookups. -/
theorem hasInterface_after_registration_witness :
    hasInterface (run worldNoLoad directX laterCalls) "a.b.C" = true ∧
    hasInterface (run worldNoLoad scannedPQ laterCalls) "p.Q" = true :=
  ⟨(hasInterface_after_registration worldNoLoad QtIVIServiceManager.empty laterCalls
      (by decide)).1 (some backendX) ["a.b.C"] "a.b.C" (by decide) (by decide),
    (hasInterface_after_registration worldNoLoad QtIVIServiceManager.empty laterCalls
      (by decide)).2 "/plugins/qtivi/libpq.so" metaDataPQ scannedEntry "p.Q" rfl
      (by decide)⟩

/-- C8: `registerService` returns true exactly when the interface list is non-empty and the
candidate casts to the service backend interface (it is a non-null object implementing
it); in every other case it returns false. -/
theorem registerService_true_iff (s : QtIVIServiceManager) (X : Option QObject)
    (L : List String) :
    ((registerService s X L).1 = true ↔ L ≠ [] ∧ qobject_cast X ≠ none) ∧
    ((registerService s X L).1 = false ↔ L = [] ∨ qobject_cast X = none) ∧
    (qobject_cast X ≠ none ↔ ∃ o, X = some o ∧ o.isServiceInterface = true) := by
  refine ⟨?_, ?_, ?_⟩
  · unfold registerService registerBackendObject
    cases L with
    | nil => simp
    | cons a l => cases hc : qobject_cast X <;> simp
  · unfold registerService registerBackendObject
    cases L with
    | nil => simp
    | cons a l => cases hc : qobject_cast X <;> simp
  · cases X with
    | none => simp [qobject_cast]
    | some o => cases hi : o.isServiceInterface <;> simp [qobject_cast, hi]

/-- C9: a failed direct registration is atomic. When the interface list is empty, or the
candidate fails the cast, or the call returns false for whatever reason, the call returns
false and the manager is exactly as before: same entries, same known interface names,
and nothing added to the trace, hence no insert notification. -/
theorem registerService_failure_atomic (s : QtIVIServiceManager) (X : Option QObject)
    (L : List String)
    (h : L = [] ∨ qobject_cast X = none ∨ (registerService s X L).1 = false) :
    registerService s X L = (false, s) := by
  rcases registerService_cases s X L with hf | ⟨i, hc, hne, hadd⟩
  · exact hf
  · rcases h with h | h | h
    · exact absurd h hne
    · rw [hc] at h
      cases h
    · rw [hadd] at h
      cases h

/-- Witness for C9: an empty interface list, a null candidate and a candidate that is not a
service backend each leave the manager `directX` as it was. -/
theorem registerService_failure_atomic_witness :
    registerService directX (some backendY) [] = (false, directX) ∧
    registerService directX none ["x.y.Z"] = (false, directX) ∧
    registerService directX (some plainObject) ["x.y.Z"] = (false, directX) :=
  ⟨registerService_failure_atomic directX (some backendY) [] (Or.inl rfl),
    registerService_failure_atomic directX none ["x.y.Z"] (Or.inr (Or.inl rfl)),
    registerService_failure_atomic directX (some plainObject) ["x.y.Z"]
      (Or.inr (Or.inr (by decide)))⟩

/-- C10: after `registerService(X, L)` succeeds, the new entry is last, holds X as its
live interface and owned object and has no loader; for every `n` in `L` the next
`findServiceByInterface(n)` returns the proxies of the earlier entries followed by a proxy
wrapping X, and the loaders constructed and the trace are those of resolving the earlier
entries alone. When no earlier entry lists `n`, the result is exactly one proxy wrapping X
and no loader is constructed. -/
theorem registerService_then_find (w : World) (s : QtIVIServiceManager)
    (X : Option QObject) (L : List String) (n : String)
    (hreg : (registerService s X L).1 = true) (hn : n ∈ L) :
    (registerService s X L).2.m_backends =
      s.m_backends ++ [⟨[("interfaces", QVariant.stringList L)], X, X, none⟩] ∧
    (findServiceByInterface w (registerService s X L).2 n).1 =
      (findServiceByInterface w
        { (registerService s X L).2 with m_backends := s.m_backends } n).1 ++ [⟨X⟩] ∧
    (findServiceByInterface w (registerService s X L).2 n).1.getLast? = some ⟨X⟩ ∧
    (findServiceByInterface w (registerService s X L).2 n).2.loadersConstructed =
      (findServiceByInterface w
        { (registerService s X L).2 with m_backends := s.m_backends }
        n).2.loadersConstructed ∧
    (findServiceByInterface w (registerService s X L).2 n).2.trace =
      (findServiceByInterface w
        { (registerService s X L).2 with m_backends := s.m_backends } n).2.trace ∧
    ((∀ b ∈ s.m_backends, Backend.provides n b = false) →
      (findServiceByInterface w (registerService s X L).2 n).1 = [⟨X⟩] ∧
      (findServiceByInterface w (registerService s X L).2 n).2.loadersConstructed =
        s.loadersConstructed ∧
      (findServiceByInterface w (registerService s X L).2 n).2.trace =
        (registerService s X L).2.trace) := by
  rcases registerService_cases s X L with hf | ⟨i, hc, hne, hadd⟩
  · rw [hf] at hreg
    cases hreg
  · have hX : X = some i := by
      cases X with
      | none => simp [qobject_cast] at hc
      | some o =>
        simp only [qobject_cast] at hc
        split at hc
        · exact congrArg some (Option.some.inj hc)
        · cases hc
    subst hX
    have hmd : QVariantMap.insert [] "interfaces" (QVariant.stringList L) =
        [("interfaces", QVariant.stringList L)] := rfl
    have hnew : (⟨QVariantMap.insert [] "interfaces" (QVariant.stringList L), some i,
        some i, none⟩ : Backend).afterIndex "interfaces" =
        ⟨[("interfaces", QVariant.stringList L)], some i, some i, none⟩ := by
      simp [Backend.afterIndex, QVariantMap.index, QVariantMap.insert, List.lookup]
    have hprov : Backend.provides n
        ⟨[("interfaces", QVariant.stringList L)], some i, some i, none⟩ = true := by
      simpa [Backend.provides, Backend.interfaces, QVariantMap.value, List.lookup,
        QVariant.toStringList] using hn
    have hback : (addBackend s ⟨QVariantMap.insert [] "interfaces" (QVariant.stringList L),
        some i, some i, none⟩).m_backends =
        s.m_backends ++ [⟨[("interfaces", QVariant.stringList L)], some i, some i, none⟩] := by
      rw [addBackend_backends, hnew]
    have hone : ∀ (k : Nat) (t : List Event),
        findLoop w n [⟨[("interfaces", QVariant.stringList L)], some i, some i, none⟩] k t =
          ⟨[⟨[("interfaces", QVariant.stringList L)], some i, some i, none⟩],
            [⟨some i⟩], k, t⟩ := by
      intro k t
      rw [findLoop_cons]
      simp only [hprov, if_true]
      have hidx : (⟨[("interfaces", QVariant.stringList L)], some i, some i, none⟩ :
          Backend).afterIndex "interfaces" =
          ⟨[("interfaces", QVariant.stringList L)], some i, some i, none⟩ := by
        simp [Backend.afterIndex, QVariantMap.index, List.lookup]
      rw [hidx, load_live w _ k t i rfl]
      simp [findLoop]
    rw [hadd]
    simp only [findServiceByInterface, hback, findLoop_append, hone]
    refine ⟨trivial, trivial, by simp, trivial, trivial, fun hnone => ?_⟩
    rw [findLoop_no_match w n _ _ _ hnone]
    exact ⟨rfl, rfl, rfl⟩

/-- Witness for C10: registering X for `a.b.C` on a manager whose only other entry lists
`p.Q`, the next lookup of `a.b.C` is exactly one proxy wrapping X and constructs no
loader. -/
theorem registerService_then_find_witness :
    (findServiceByInterface worldNoLoad
      (registerService scannedPQ (some backendX) ["a.b.C"]).2 "a.b.C").1 =
        [⟨some backendX⟩] ∧
    (findServiceByInterface worldNoLoad
      (registerService scannedPQ (some backendX) ["a.b.C"]).2 "a.b.C").2.loadersConstructed =
        scannedPQ.loadersConstructed :=
  ⟨((registerService_then_find worldNoLoad scannedPQ (some backendX) ["a.b.C"] "a.b.C"
      (by decide) (by decide)).2.2.2.2.2 (by decide)).1,
    ((registerService_then_find worldNoLoad scannedPQ (some backendX) ["a.b.C"] "a.b.C"
      (by decide) (by decide)).2.2.2.2.2 (by decide)).2.1⟩

/-- C11: the scan registers exactly the well-formed candidates. Registering a sequence of
scanned candidates appends, in scan order, one entry for each candidate whose metadata
carries a non-empty `interfaces` list and nothing for the others, so of `N` candidates
with `M` malformed ones exactly `N - M` entries are appended; a malformed candidate
leaves the entries as they are and the candidates behind it are registered as if it were
not there; `searchPlugins` registers the candidates found under the library paths in
this way. -/
theorem scan_registers_wellFormed_candidates (w : World) (s : QtIVIServiceManager)
    (cs : List (String × QJsonObject)) :
    (registerAll s cs).m_backends =
      s.m_backends ++
        (cs.filter (fun c => hasInterfacesList c.2)).map
          (fun c => scannedBackend c.1 c.2) ∧
    (registerAll s cs).m_backends.length =
      s.m_backends.length +
        (cs.length - (cs.filter (fun c => !hasInterfacesList c.2)).length) ∧
    (∀ (fileName : String) (metaData : QJsonObject) (rest : List (String × QJsonObject)),
      hasInterfacesList metaData = false →
      (registerBackend s fileName metaData).m_backends = s.m_backends ∧
      (registerAll s ((fileName, metaData) :: rest)).m_backends =
        (registerAll s rest).m_backends) ∧
    (∀ (fileName : String) (metaData : QJsonObject),
      hasInterfacesList metaData = true →
      (registerBackend s fileName metaData).m_backends =
        s.m_backends ++ [scannedBackend fileName metaData]) ∧
    (searchPlugins w s).m_backends =
      s.m_backends ++
        ((scanCandidates w).filter (fun c => hasInterfacesList c.2)).map
          (fun c => scannedBackend c.1 c.2) := by
  refine ⟨registerAll_backends s cs, ?_, fun f md rest h => ⟨?_, ?_⟩, fun f md h => ?_, ?_⟩
  · rw [registerAll_backends]
    simp only [List.length_append, List.length_map]
    have hsplit : ∀ l : List (String × QJsonObject),
        (l.filter (fun c => hasInterfacesList c.2)).length +
          (l.filter (fun c => !hasInterfacesList c.2)).length = l.length := by
      intro l
      induction l with
      | nil => rfl
      | cons c rest ih =>
        cases hc : hasInterfacesList c.2 <;> simp [List.filter_cons, hc] <;> omega
    have := hsplit cs
    omega
  · rw [registerBackend_malformed s f md h]
  · rw [registerAll_backends, registerAll_backends]
    simp [List.filter_cons, h]
  · rw [registerBackend_wellFormed s f md h, addBackend_scannedBackend_backends s f md h]
  · rw [(searchPlugins_backends w s).1, registerAll_backends]

/-- Witness for C11: of the two scanned candidates, the malformed one is skipped and
the one behind it is registered. -/
theorem scan_registers_wellFormed_candidates_witness :
    (registerBackend QtIVIServiceManager.empty "/plugins/qtivi/libbad.so"
      metaDataMalformed).m_backends = [] ∧
    (registerAll QtIVIServiceManager.empty scanTwo).m_backends =
      (registerAll QtIVIServiceManager.empty
        [("/plugins/qtivi/libpq.so", metaDataPQ)]).m_backends ∧
    (registerBackend QtIVIServiceManager.empty "/plugins/qtivi/libpq.so"
      metaDataPQ).m_backends = [scannedBackend "/plugins/qtivi/libpq.so" metaDataPQ] :=
  ⟨((scan_registers_wellFormed_candidates worldScan QtIVIServiceManager.empty scanTwo).2.2.1
      "/plugins/qtivi/libbad.so" metaDataMalformed
      [("/plugins/qtivi/libpq.so", metaDataPQ)] (by decide)).1,
    ((scan_registers_wellFormed_candidates worldScan QtIVIServiceManager.empty scanTwo).2.2.1
      "/plugins/qtivi/libbad.so" metaDataMalformed
      [("/plugins/qtivi/libpq.so", metaDataPQ)] (by decide)).2,
    (scan_registers_wellFormed_candidates worldScan QtIVIServiceManager.empty scanTwo).2.2.2.1
      "/plugins/qtivi/libpq.so" metaDataPQ (by decide)⟩

/-- C12: scanned backends are materialised lazily. Registering a scanned candidate calls
`instance()` on no loader and constructs none; a well-formed candidate becomes a new last
entry with no interface, no object and no loader, whose recorded file is the scan
locator whatever the raw metadata says. The next lookup of a name the entry lists
constructs exactly one loader for it, for the scan locator, after resolving the earlier
entries, and returns as last proxy the result of casting what `instance()` gave, which
is the loaded object when the load succeeds; in general a lookup calls `instance()`
exactly once for every matching entry that is not live, with that entry's file. -/
theorem scanned_backend_loaded_lazily (w : World) (s : QtIVIServiceManager)
    (fileName : String) (metaData : QJsonObject) (n : String)
    (hwf : hasInterfacesList metaData = true)
    (hn : n ∈ (scannedBackend fileName metaData).interfaces) :
    instanceCalls (registerBackend s fileName metaData).trace = instanceCalls s.trace ∧
    (registerBackend s fileName metaData).loadersConstructed = s.loadersConstructed ∧
    (registerBackend s fileName metaData).m_backends =
      s.m_backends ++ [scannedBackend fileName metaData] ∧
    (scannedBackend fileName metaData).interface = none ∧
    (scannedBackend fileName metaData).interfaceObject = none ∧
    (scannedBackend fileName metaData).loader = none ∧
    (scannedBackend fileName metaData).fileName = fileName ∧
    (findServiceByInterface w (registerBackend s fileName metaData) n).1 =
      (findServiceByInterface w
        { registerBackend s fileName metaData with m_backends := s.m_backends } n).1 ++
        [⟨qobject_cast (w.loaderInstance
          (findServiceByInterface w
            { registerBackend s fileName metaData with m_backends := s.m_backends }
            n).2.loadersConstructed fileName)⟩] ∧
    instanceCalls (findServiceByInterface w (registerBackend s fileName metaData) n).2.trace =
      instanceCalls (findServiceByInterface w
        { registerBackend s fileName metaData with m_backends := s.m_backends }
        n).2.trace ++
        [⟨(findServiceByInterface w
            { registerBackend s fileName metaData with m_backends := s.m_backends }
            n).2.loadersConstructed, fileName⟩] ∧
    (instanceCalls
        (findServiceByInterface w (registerBackend s fileName metaData) n).2.trace).map
        (fun l => l.fileName) =
      (instanceCalls s.trace).map (fun l => l.fileName) ++
        ((registerBackend s fileName metaData).m_backends.filter
          (fun b => Backend.provides n b && b.notLive)).map Backend.fileName := by
  have hreg := registerBackend_instanceCalls s fileName metaData
  have hback : (registerBackend s fileName metaData).m_backends =
      s.m_backends ++ [scannedBackend fileName metaData] := by
    rw [registerBackend_wellFormed s fileName metaData hwf,
      addBackend_scannedBackend_backends s fileName metaData hwf]
  have hp : Backend.provides n (scannedBackend fileName metaData) = true := by
    simpa [Backend.provides] using hn
  have hone := fun k t => findLoop_single_notLive w n (scannedBackend fileName metaData) k t
    hp rfl (scannedBackend_hasKey_interfaces fileName metaData hwf)
  refine ⟨hreg.1, hreg.2, hback, rfl, rfl, rfl, scannedBackend_fileName fileName metaData,
    ?_, ?_, ?_⟩
  · simp only [findServiceByInterface, hback, findLoop_append]
    rw [(hone _ _).1, scannedBackend_fileName]
  · simp only [findServiceByInterface, hback, findLoop_append]
    rw [(hone _ _).2.2.1, scannedBackend_fileName]
  · have h := findLoop_instanceCalls w n (registerBackend s fileName metaData).m_backends
      (registerBackend s fileName metaData).loadersConstructed
      (registerBackend s fileName metaData).trace
    rw [hreg.1] at h
    exact h

/-- Witness for C12: the scan of one malformed and one valid candidate for `p.Q` leaves
exactly one entry; the lookup of `p.Q` then calls `instance()` on exactly one loader,
the one for the scanned file, and returns one proxy, wrapping the loaded object. -/
theorem scanned_backend_loaded_lazily_witness :
    (searchPlugins worldScan QtIVIServiceManager.empty).m_backends.length = 1 ∧
    instanceCalls (searchPlugins worldScan QtIVIServiceManager.empty).trace = [] ∧
    instanceCalls (findServiceByInterface worldScan
      (searchPlugins worldScan QtIVIServiceManager.empty) "p.Q").2.trace =
        [⟨0, "/plugins/qtivi/libpq.so"⟩] ∧
    (findServiceByInterface worldScan
      (searchPlugins worldScan QtIVIServiceManager.empty) "p.Q").1 =
        [⟨some ⟨100, true⟩⟩] ∧
    (findServiceByInterface worldScan
      (registerBackend (registerBackend QtIVIServiceManager.empty "/plugins/qtivi/libbad.so"
        metaDataMalformed) "/plugins/qtivi/libpq.so" metaDataPQ) "p.Q").1 =
        [] ++ [⟨some ⟨100, true⟩⟩] :=
  ⟨by decide, by decide, by decide, by decide,
    (scanned_backend_loaded_lazily worldScan
      (registerBackend QtIVIServiceManager.empty "/plugins/qtivi/libbad.so"
        metaDataMalformed) "/plugins/qtivi/libpq.so" metaDataPQ "p.Q" (by decide)
      (by decide)).2.2.2.2.2.2.2.1⟩

/-- C13: the postcondition of `addBackend`. The entries afterwards are the old entries,
unchanged and at their indices, followed by the new entry, and `m_interfaceNames` is the
old set united with the interface names of the new entry. Both registration paths reach
exactly this: a successful `registerService(X, L)` is `addBackend` of the entry holding X
with names `L`, and the registration of a well-formed scanned candidate is `addBackend`
of its scanned entry. -/
theorem addBackend_postcondition (s : QtIVIServiceManager) (b : Backend) :
    (b.hasKey "interfaces" = true → (addBackend s b).m_backends = s.m_backends ++ [b]) ∧
    (addBackend s b).m_backends = s.m_backends ++ [b.afterIndex "interfaces"] ∧
    (b.afterIndex "interfaces").interfaces = b.interfaces ∧
    (∀ i : Nat, i < s.m_backends.length →
      (addBackend s b).m_backends[i]? = s.m_backends[i]?) ∧
    (addBackend s b).m_backends.length = s.m_backends.length + 1 ∧
    (addBackend s b).m_interfaceNames = s.m_interfaceNames ∪ b.interfaces.toFinset ∧
    (∀ (X : Option QObject) (L : List String), (registerService s X L).1 = true →
      (registerService s X L).2 =
        addBackend s ⟨[("interfaces", QVariant.stringList L)], X, X, none⟩ ∧
      (registerService s X L).2.m_backends =
        s.m_backends ++ [⟨[("interfaces", QVariant.stringList L)], X, X, none⟩] ∧
      (registerService s X L).2.m_interfaceNames = s.m_interfaceNames ∪ L.toFinset) ∧
    (∀ (fileName : String) (metaData : QJsonObject), hasInterfacesList metaData = true →
      registerBackend s fileName metaData =
        addBackend s (scannedBackend fileName metaData) ∧
      (registerBackend s fileName metaData).m_backends =
        s.m_backends ++ [scannedBackend fileName metaData] ∧
      (registerBackend s fileName metaData).m_interfaceNames =
        s.m_interfaceNames ∪ (scannedBackend fileName metaData).interfaces.toFinset) := by
  have hnames : ∀ (s : QtIVIServiceManager) (b : Backend),
      (addBackend s b).m_interfaceNames = s.m_interfaceNames ∪ b.interfaces.toFinset := by
    intro s b
    ext x
    rw [addBackend_names, Finset.mem_union, List.mem_toFinset]
  refine ⟨fun hk => ?_, rfl, Backend.afterIndex_interfaces b _, fun i hi => ?_, ?_,
    hnames s b, fun X L hreg => ?_, fun fileName metaData hwf => ?_⟩
  · rw [addBackend_backends, Backend.afterIndex_of_hasKey b _ hk]
  · rw [addBackend_backends, List.getElem?_append_left hi]
  · rw [addBackend_backends]; simp
  · rcases registerService_cases s X L with hf | ⟨i, hc, hne, hadd⟩
    · rw [hf] at hreg
      cases hreg
    · have hX : X = some i := by
        cases X with
        | none => simp [qobject_cast] at hc
        | some o =>
          simp only [qobject_cast] at hc
          split at hc
          · exact congrArg some (Option.some.inj hc)
          · cases hc
      subst hX
      have hmd : QVariantMap.insert [] "interfaces" (QVariant.stringList L) =
          [("interfaces", QVariant.stringList L)] := rfl
      rw [hadd, hmd]
      refine ⟨rfl, ?_, ?_⟩
      · rw [addBackend_backends]
        rfl
      · rw [hnames]
        rfl
  · rw [registerBackend_wellFormed s fileName metaData hwf]
    exact ⟨rfl, addBackend_scannedBackend_backends s fileName metaData hwf, hnames s _⟩

/-- Witness for C13: registering X for `a.b.C` on the manager holding the scanned `p.Q`
plugin, and scanning the `p.Q` plugin into the manager holding X. -/
theorem addBackend_postcondition_witness :
    (registerService scannedPQ (some backendX) ["a.b.C"]).2.m_backends =
      scannedPQ.m_backends ++
        [⟨[("interfaces", QVariant.stringList ["a.b.C"])], some backendX, some backendX,
          none⟩] ∧
    (registerService scannedPQ (some backendX) ["a.b.C"]).2.m_interfaceNames =
      scannedPQ.m_interfaceNames ∪ ["a.b.C"].toFinset ∧
    (registerBackend directX "/plugins/qtivi/libpq.so" metaDataPQ).m_interfaceNames =
      directX.m_interfaceNames ∪
        (scannedBackend "/plugins/qtivi/libpq.so" metaDataPQ).interfaces.toFinset ∧
    (addBackend directX scannedEntry).m_backends = directX.m_backends ++ [scannedEntry] :=
  ⟨((addBackend_postcondition scannedPQ scannedEntry).2.2.2.2.2.2.1 (some backendX)
      ["a.b.C"] (by decide)).2.1,
    ((addBackend_postcondition scannedPQ scannedEntry).2.2.2.2.2.2.1 (some backendX)
      ["a.b.C"] (by decide)).2.2,
    ((addBackend_postcondition directX scannedEntry).2.2.2.2.2.2.2
      "/plugins/qtivi/libpq.so" metaDataPQ (by decide)).2.2,
    (addBackend_postcondition directX scannedEntry).1 (by decide)⟩

/-- C14: in every manager reached from the empty one by any sequence of scans,
registrations, lookups and teardowns, every entry lists at least one interface name. A
candidate without a non-empty `interfaces` list never becomes an entry: the scan
registration and the direct registration both leave the entries as they are. -/
theorem reachable_entries_have_interfaces (w : World) (ops : List Op) :
    (∀ b ∈ (run w QtIVIServiceManager.empty ops).m_backends, b.interfaces ≠ []) ∧
    (∀ (s : QtIVIServiceManager) (fileName : String) (metaData : QJsonObject),
      hasInterfacesList metaData = false →
      (registerBackend s fileName metaData).m_backends = s.m_backends) ∧
    (∀ (s : QtIVIServiceManager) (X : Option QObject),
      (registerService s X []).2.m_backends = s.m_backends) ∧
    (∀ (fileName : String) (metaData : QJsonObject),
      hasInterfacesList metaData = true →
      (scannedBackend fileName metaData).interfaces ≠ []) := by
  refine ⟨fun b hb => ?_, fun s f md h => ?_, fun s X => rfl,
    fun f md h => scannedBackend_interfaces_ne_nil f md h⟩
  · exact ((consistent_run w _ ops consistent_empty) b hb).1.2.1
  · rw [registerBackend_malformed s f md h]

/-- Witness for C14: after a scan, two registrations, a lookup, a teardown and a further
scan registration, the single remaining entry lists the name `p.Q`. -/
theorem reachable_entries_have_interfaces_witness :
    (run worldScan QtIVIServiceManager.empty
      (Op.searchPlugins :: laterCalls ++
        [Op.unloadAllBackends, Op.registerBackend "/plugins/qtivi/libpq.so" metaDataPQ,
         Op.registerBackend "/plugins/qtivi/libbad.so" metaDataMalformed])).m_backends.map
      Backend.interfaces = [["p.Q"]] ∧
    scannedEntry.interfaces ≠ [] :=
  ⟨by decide,
    (reachable_entries_have_interfaces worldScan
      [Op.registerBackend "/plugins/qtivi/libpq.so" metaDataPQ]).1 scannedEntry
      (List.mem_singleton.mpr rfl)⟩

/-- C15: load failures are not cached. Take a reachable manager whose entries are
`pre ++ b :: post`, where `b` lists the name and is not live; such an entry holds no
loader and no object. The lookup calls `instance()` for `b` on a new loader for the file
of `b`, after resolving `pre`. If the load or the cast fails, the entry is afterwards
exactly `b` again, at the same index, so it is among the matching entries that are not
live, which are the entries for which the next lookup calls `instance()` again. If the
load succeeds with object `o`, the entry afterwards is `b` with `o` as interface and the
new loader retained, and the proxy returned for it wraps `o`. -/
theorem load_failure_not_cached (w : World) (ops : List Op) (n : String)
    (pre post : List Backend) (b : Backend)
    (hs : (run w QtIVIServiceManager.empty ops).m_backends = pre ++ b :: post)
    (hp : Backend.provides n b = true) (hi : b.interface = none) :
    b.loader = none ∧ b.interfaceObject = none ∧
    instanceCalls (findServiceByInterface w
        { run w QtIVIServiceManager.empty ops with m_backends := pre ++ [b] } n).2.trace =
      instanceCalls (findServiceByInterface w
        { run w QtIVIServiceManager.empty ops with m_backends := pre } n).2.trace ++
        [⟨(findServiceByInterface w
            { run w QtIVIServiceManager.empty ops with m_backends := pre }
            n).2.loadersConstructed, b.fileName⟩] ∧
    (qobject_cast (w.loaderInstance
        (findServiceByInterface w
          { run w QtIVIServiceManager.empty ops with m_backends := pre }
          n).2.loadersConstructed b.fileName) = none →
      (findServiceByInterface w (run w QtIVIServiceManager.empty ops) n).2.m_backends[
        pre.length]? = some b ∧
      b ∈ (findServiceByInterface w (run w QtIVIServiceManager.empty ops)
        n).2.m_backends.filter (fun x => Backend.provides n x && x.notLive)) ∧
    (∀ o : QObject,
      qobject_cast (w.loaderInstance
        (findServiceByInterface w
          { run w QtIVIServiceManager.empty ops with m_backends := pre }
          n).2.loadersConstructed b.fileName) = some o →
      (findServiceByInterface w (run w QtIVIServiceManager.empty ops) n).2.m_backends[
        pre.length]? =
        some { b with
          interface := some o,
          loader := some ⟨(findServiceByInterface w
            { run w QtIVIServiceManager.empty ops with m_backends := pre }
            n).2.loadersConstructed, b.fileName⟩ } ∧
      (findServiceByInterface w (run w QtIVIServiceManager.empty ops) n).1[
        (pre.filter (Backend.provides n)).length]? = some ⟨some o⟩) ∧
    (instanceCalls (findServiceByInterface w
        (findServiceByInterface w (run w QtIVIServiceManager.empty ops) n).2 n).2.trace).map
        (fun l => l.fileName) =
      (instanceCalls
        (findServiceByInterface w (run w QtIVIServiceManager.empty ops) n).2.trace).map
        (fun l => l.fileName) ++
        ((findServiceByInterface w (run w QtIVIServiceManager.empty ops)
          n).2.m_backends.filter (fun x => Backend.provides n x && x.notLive)).map
          Backend.fileName := by
  have hcons := consistent_run w _ ops consistent_empty
  have hbok : b.ok := (hcons b (by rw [hs]; simp)).1
  obtain ⟨hkey, _, hnl, _⟩ := hbok
  obtain ⟨hfile, hload, hobj⟩ := hnl hi
  have hidx : b.afterIndex "interfaces" = b := Backend.afterIndex_of_hasKey b _ hkey
  have hone := fun k t => findLoop_single_notLive w n b k t hp hi hkey
  have hpost : ∀ (k : Nat) (t : List Event),
      (findLoop w n (pre ++ b :: post) k t).backends =
        (findLoop w n pre k t).backends ++
          (loadServiceBackendInterface w b (findLoop w n pre k t).loadersConstructed
            (findLoop w n pre k t).trace).backend ::
          (findLoop w n post
            (loadServiceBackendInterface w b (findLoop w n pre k t).loadersConstructed
              (findLoop w n pre k t).trace).loadersConstructed
            (loadServiceBackendInterface w b (findLoop w n pre k t).loadersConstructed
              (findLoop w n pre k t).trace).trace).backends := by
    intro k t
    rw [findLoop_append, findLoop_cons, hidx]
    simp [hp]
  have hlist : ∀ (k : Nat) (t : List Event),
      (findLoop w n (pre ++ b :: post) k t).list[(pre.filter (Backend.provides n)).length]? =
        some ⟨(loadServiceBackendInterface w b (findLoop w n pre k t).loadersConstructed
            (findLoop w n pre k t).trace).result⟩ := by
    intro k t
    rw [findLoop_append, findLoop_cons, hidx]
    simp only [hp, if_true]
    rw [List.getElem?_append_right (by rw [findLoop_list_length])]
    rw [findLoop_list_length]
    simp
  have hget : ∀ (k : Nat) (t : List Event),
      (findLoop w n (pre ++ b :: post) k t).backends[pre.length]? =
        some (loadServiceBackendInterface w b (findLoop w n pre k t).loadersConstructed
            (findLoop w n pre k t).trace).backend := by
    intro k t
    rw [hpost, List.getElem?_append_right (by rw [findLoop_length])]
    rw [findLoop_length]
    simp
  refine ⟨hload, hobj, ?_, fun hfail => ?_, fun o hok => ?_, ?_⟩
  · simp only [findServiceByInterface, findLoop_append]
    exact (hone _ _).2.2.1
  · have hb2 : (findServiceByInterface w (run w QtIVIServiceManager.empty ops)
        n).2.m_backends[pre.length]? = some b := by
      simp only [findServiceByInterface, hs] at hfail ⊢
      rw [hget, load_notLive_backend w b _ _ hi hfile, hfail]
    refine ⟨hb2, ?_⟩
    rw [List.mem_filter]
    refine ⟨List.getElem?_mem hb2, ?_⟩
    simp [hp, Backend.notLive, hi]
  · simp only [findServiceByInterface, hs] at hok ⊢
    refine ⟨?_, ?_⟩
    · rw [hget, load_notLive_backend w b _ _ hi hfile, hok]
    · rw [hlist, load_notLive_result w b _ _ hi, hok]
  · exact findLoop_instanceCalls w n _ _ _

/-- Witness for C15: with a loader that fails on its first use and succeeds afterwards,
the first lookup of `p.Q` leaves the scanned entry as it was, the second lookup calls
`instance()` again, on a second loader for the same file, and returns the loaded
object. -/
theorem load_failure_not_cached_witness :
    (findServiceByInterface worldFlaky scannedPQ "p.Q").2.m_backends[0]? =
      some scannedEntry ∧
    (findServiceByInterface worldFlaky
      (findServiceByInterface worldFlaky scannedPQ "p.Q").2 "p.Q").1[0]? =
      some ⟨some ⟨101, true⟩⟩ ∧
    instanceCalls (findServiceByInterface worldFlaky
      (findServiceByInterface worldFlaky scannedPQ "p.Q").2 "p.Q").2.trace =
      [⟨0, "/plugins/qtivi/libpq.so"⟩, ⟨1, "/plugins/qtivi/libpq.so"⟩] :=
  ⟨((load_failure_not_cached worldFlaky
      [Op.registerBackend "/plugins/qtivi/libpq.so" metaDataPQ] "p.Q" [] [] scannedEntry
      rfl (by decide) rfl).2.2.2.1 (by decide)).1,
    ((load_failure_not_cached worldFlaky
      [Op.registerBackend "/plugins/qtivi/libpq.so" metaDataPQ,
       Op.findServiceByInterface "p.Q"] "p.Q" [] [] scannedEntry
      rfl (by decide) rfl).2.2.2.2.1 ⟨101, true⟩ (by decide)).2,
    by decide⟩

/-- C16: `hasInterface` is a sound probe for `findServiceByInterface`. In every manager
reached from the empty one by any sequence of calls, teardowns included, every interface
name an entry lists is known to `hasInterface`; hence when `hasInterface(n)` is false the
lookup of `n` returns the empty list and leaves the manager exactly as it is: no loader
is constructed and nothing is added to the trace. -/
theorem hasInterface_sound_probe (w : World) (ops : List Op) (n : String) :
    (hasInterface (run w QtIVIServiceManager.empty ops) n = false →
      findServiceByInterface w (run w QtIVIServiceManager.empty ops) n =
        ([], run w QtIVIServiceManager.empty ops)) ∧
    (∀ b ∈ (run w QtIVIServiceManager.empty ops).m_backends, ∀ m ∈ b.interfaces,
      hasInterface (run w QtIVIServiceManager.empty ops) m = true) := by
  have hcons := consistent_run w _ ops consistent_empty
  refine ⟨fun hno => ?_, fun b hb m hm => ?_⟩
  · have hnot : n ∉ (run w QtIVIServiceManager.empty ops).m_interfaceNames := by
      simpa [hasInterface] using hno
    have hnone : ∀ b ∈ (run w QtIVIServiceManager.empty ops).m_backends,
        Backend.provides n b = false := by
      intro b hb
      cases hp : Backend.provides n b with
      | false => rfl
      | true =>
        exfalso
        apply hnot
        apply (hcons b hb).2
        simpa [Backend.provides] using hp
    have hmap : (run w QtIVIServiceManager.empty ops).m_backends.map
        (fun b => b.afterIndex "interfaces") =
        (run w QtIVIServiceManager.empty ops).m_backends := by
      conv => rhs; rw [← List.map_id (run w QtIVIServiceManager.empty ops).m_backends]
      apply List.map_congr_left
      intro b hb
      exact Backend.afterIndex_of_hasKey b _ (hcons b hb).1.1
    simp only [findServiceByInterface]
    rw [findLoop_no_match w n _ _ _ hnone, hmap]
  · simp only [hasInterface, decide_eq_true_eq]
    exact (hcons b hb).2 m hm

/-- Witness for C16: after a scan, registrations, lookups and a teardown the name `x.y.Q`
is unknown, and its lookup returns nothing and changes nothing. -/
theorem hasInterface_sound_probe_witness :
    findServiceByInterface worldScan
      (run worldScan QtIVIServiceManager.empty
        (Op.searchPlugins :: laterCalls ++ [Op.unloadAllBackends, Op.searchPlugins]))
      "x.y.Q" =
    ([], run worldScan QtIVIServiceManager.empty
      (Op.searchPlugins :: laterCalls ++ [Op.unloadAllBackends, Op.searchPlugins])) :=
  (hasInterface_sound_probe worldScan
    (Op.searchPlugins :: laterCalls ++ [Op.unloadAllBackends, Op.searchPlugins])
    "x.y.Q").1 (by decide)

/-- C17: the catalog view is a projection of the entries. `rowCount` for the root index,
and for any invalid parent, is the number of entries. `data` for a valid index whose row
is that of an entry, with the display role, is the variant holding the interface pointer
of that entry: the live object when the entry is loaded, and a null pointer, an empty
value, when it is not. For an invalid index, a row past the entries, or any other role,
`data` is the invalid variant, which is empty as well. Both are functions of the manager
that return a value only: they construct no loader and leave the manager as it is. -/
theorem catalog_view_projection (s : QtIVIServiceManager) (index : QModelIndex)
    (role : Int) :
    rowCount s QModelIndex.root = s.m_backends.length ∧
    (∀ parent : QModelIndex, parent.isValid = false →
      rowCount s parent = s.m_backends.length) ∧
    (∀ b : Backend, index.isValid = true → role = DisplayRole →
      s.m_backends[index.row.toNat]? = some b →
      data s index role = QVariant.serviceInterface b.interface ∧
      (data s index role).toServiceInterface = b.interface ∧
      (b.interface = none → (data s index role).isNull = true)) ∧
    (index.isValid = false ∨ role ≠ DisplayRole ∨ (s.m_backends.length : Int) ≤ index.row →
      data s index role = QVariant.invalid) ∧
    QVariant.invalid.isNull = true ∧ QVariant.invalid.toServiceInterface = none := by
  refine ⟨rfl, fun parent hp => by simp [rowCount, hp], fun b hv hr hb => ?_,
    fun h => ?_, rfl, rfl⟩
  · have hlt : index.row.toNat < s.m_backends.length := by
      by_contra hge
      rw [List.getElem?_eq_none (by omega)] at hb
      cases hb
    have h0 : 0 ≤ index.row := by
      simp only [QModelIndex.isValid, Bool.and_eq_true, decide_eq_true_eq] at hv
      exact hv.1.1
    have hrow : index.row < (s.m_backends.length : Int) := by omega
    have hd : data s index role = QVariant.serviceInterface b.interface := by
      simp [data, hv, h0, hrow, hr, hb]
    refine ⟨hd, by rw [hd]; rfl, fun hn => ?_⟩
    rw [hd, hn]
    rfl
  · rcases h with h | h | h
    · simp [data, h]
    · unfold data
      split
      · rfl
      · rw [if_neg (fun hc => h hc.2.2)]
    · unfold data
      split
      · rfl
      · rw [if_neg (fun hc => by omega)]

/-- Witness for C17: in the manager holding the loaded plugin, row 0 shows the loaded
object; in the manager holding the scanned plugin, row 0 shows a null pointer; row 1 and
another role show the invalid variant. -/
theorem catalog_view_projection_witness :
    data loadedPQ ⟨0, 0, true⟩ DisplayRole = QVariant.serviceInterface (some ⟨100, true⟩) ∧
    (data scannedPQ ⟨0, 0, true⟩ DisplayRole).isNull = true ∧
    data scannedPQ ⟨1, 0, true⟩ DisplayRole = QVariant.invalid ∧
    data loadedPQ ⟨0, 0, true⟩ 1 = QVariant.invalid :=
  ⟨((catalog_view_projection loadedPQ ⟨0, 0, true⟩ DisplayRole).2.2.1 loadedEntry rfl rfl
      rfl).1,
    ((catalog_view_projection scannedPQ ⟨0, 0, true⟩ DisplayRole).2.2.1 scannedEntry rfl rfl
      rfl).2.2 rfl,
    (catalog_view_projection scannedPQ ⟨1, 0, true⟩ DisplayRole).2.2.2.1
      (Or.inr (Or.inr (by decide))),
    (catalog_view_projection loadedPQ ⟨0, 0, true⟩ 1).2.2.2.1 (Or.inr (Or.inl (by decide)))⟩

/-- C18 (counterexample): `rowCount` is not the number of distinct interface names.
With one backend registered for two names the root row count is 1 while two names are
known; with two backends registered for the same name the root row count is 2 while one
name is known. -/
theorem rowCount_is_not_interface_count :
    rowCount directTwoNames QModelIndex.root ≠ directTwoNames.m_interfaceNames.card ∧
    rowCount directTwoNames QModelIndex.root = 1 ∧
    directTwoNames.m_interfaceNames.card = 2 ∧
    rowCount directXY QModelIndex.root ≠ directXY.m_interfaceNames.card ∧
    rowCount directXY QModelIndex.root = 2 ∧
    directXY.m_interfaceNames.card = 1 := by
  decide

/-- C18 (amended): for the root index, and any invalid parent, `rowCount` is the number of
registered backends, one row per entry of `m_backends`; for a valid parent it is 0. Every
registration that succeeds adds exactly one row, however many names it lists. -/
theorem rowCount_counts_backends (s : QtIVIServiceManager) (parent : QModelIndex)
    (b : Backend) :
    rowCount s QModelIndex.root = s.m_backends.length ∧
    rowCount s parent = (if parent.isValid then 0 else s.m_backends.length) ∧
    rowCount (addBackend s b) QModelIndex.root = rowCount s QModelIndex.root + 1 := by
  refine ⟨rfl, rfl, ?_⟩
  simp [rowCount, QModelIndex.root, QModelIndex.isValid, addBackend_backends]

/-- C19 (counterexample): teardown of the empty manager is observable. It emits the two
reset notifications, so the trace of signals is not what it was. -/
theorem unloadAllBackends_empty_emits_reset :
    signalCount (unloadAllBackends QtIVIServiceManager.empty).trace ≠
      signalCount QtIVIServiceManager.empty.trace ∧
    signalCount (unloadAllBackends QtIVIServiceManager.empty).trace = 2 ∧
    signalCount QtIVIServiceManager.empty.trace = 0 := by
  decide

/-- C19 (amended): teardown of a manager without entries changes neither the entries nor
the known interface names, constructs, unloads and deletes nothing, and emits exactly the
pair of reset notifications. A teardown followed by a teardown leaves the entries and
names of a single teardown and adds only a second pair of reset notifications. -/
theorem unloadAllBackends_empty (s : QtIVIServiceManager) (h : s.m_backends = []) :
    (unloadAllBackends s).m_backends = s.m_backends ∧
    (unloadAllBackends s).m_interfaceNames = s.m_interfaceNames ∧
    (unloadAllBackends s).loadersConstructed = s.loadersConstructed ∧
    (unloadAllBackends s).trace =
      s.trace ++ [Event.beginResetModel s.snapshot, Event.endResetModel s.snapshot] ∧
    deletedObjects (unloadAllBackends s).trace = deletedObjects s.trace ∧
    unloadedLoaders (unloadAllBackends s).trace = unloadedLoaders s.trace ∧
    (unloadAllBackends (unloadAllBackends s)).m_backends = (unloadAllBackends s).m_backends ∧
    (unloadAllBackends (unloadAllBackends s)).m_interfaceNames =
      (unloadAllBackends s).m_interfaceNames ∧
    (unloadAllBackends (unloadAllBackends s)).trace =
      (unloadAllBackends s).trace ++
        [Event.beginResetModel (unloadAllBackends s).snapshot,
         Event.endResetModel (unloadAllBackends s).snapshot] := by
  have hsnap : (⟨[], s.m_interfaceNames⟩ : Snapshot) = s.snapshot := by
    simp [QtIVIServiceManager.snapshot, h]
  have htrace : (unloadAllBackends s).trace =
      s.trace ++ [Event.beginResetModel s.snapshot, Event.endResetModel s.snapshot] := by
    rw [unloadAllBackends_trace, h, hsnap]
    simp [evenPositions]
  have hdel : ∀ (t u : List Event), (∀ e ∈ u, ∃ v, e = Event.beginResetModel v ∨
      e = Event.endResetModel v) →
      deletedObjects (t ++ u) = deletedObjects t ∧
      unloadedLoaders (t ++ u) = unloadedLoaders t := by
    intro t u hu
    induction t with
    | nil =>
      induction u with
      | nil => exact ⟨rfl, rfl⟩
      | cons e rest ih =>
        have hrest := ih (fun x hx => hu x (List.mem_cons_of_mem _ hx))
        obtain ⟨v, hv | hv⟩ := hu e (List.mem_cons_self _ _)
        · subst hv
          simpa [deletedObjects, unloadedLoaders] using hrest
        · subst hv
          simpa [deletedObjects, unloadedLoaders] using hrest
    | cons e rest ih =>
      cases e <;> simp [deletedObjects, unloadedLoaders, ih.1, ih.2]
  have hrel := hdel s.trace
    [Event.beginResetModel s.snapshot, Event.endResetModel s.snapshot]
    (by
      intro e he
      simp only [List.mem_cons, List.mem_singleton, List.not_mem_nil, or_false] at he
      rcases he with he | he
      · exact ⟨_, Or.inl he⟩
      · exact ⟨_, Or.inr he⟩)
  refine ⟨h.symm ▸ rfl, rfl, rfl, htrace, ?_, ?_, rfl, rfl, ?_⟩
  · rw [htrace]; exact hrel.1
  · rw [htrace]; exact hrel.2
  · rw [unloadAllBackends_trace (unloadAllBackends s)]
    have he : (unloadAllBackends s).m_backends = [] := rfl
    simp [he, evenPositions, QtIVIServiceManager.snapshot]

/-- Witness for C19 (amended): the teardown of the empty manager. -/
theorem unloadAllBackends_empty_witness :
    (unloadAllBackends QtIVIServiceManager.empty).trace =
      QtIVIServiceManager.empty.trace ++
        [Event.beginResetModel QtIVIServiceManager.empty.snapshot,
         Event.endResetModel QtIVIServiceManager.empty.snapshot] ∧
    deletedObjects (unloadAllBackends QtIVIServiceManager.empty).trace =
      deletedObjects QtIVIServiceManager.empty.trace :=
  ⟨(unloadAllBackends_empty QtIVIServiceManager.empty rfl).2.2.2.1,
    (unloadAllBackends_empty QtIVIServiceManager.empty rfl).2.2.2.2.1⟩

/-- C20 (counterexample): when the row-inserted (end) notification of registering X for
`a.b.C` is delivered, the new row is there but `a.b.C` is not yet a known interface
name; it is known once the registration has returned. -/
theorem endInsertRows_before_interfaceNames :
    (endInsertSnapshots directX.trace).map
      (fun seen => decide ("a.b.C" ∈ seen.interfaceNames)) = [false] ∧
    (endInsertSnapshots directX.trace).map (fun seen => seen.backends.length) = [1] ∧
    hasInterface directX "a.b.C" = true := by
  decide

/-- C20 (amended): `addBackend` emits exactly two notifications. The begin notification
comes first, is delivered while entries and names are still those from before the call,
and announces first = last = the number of entries before the insert. When the end
notification is delivered the new entry is at the announced index behind the unchanged
earlier entries, and the known interface names are still those from before the call.
The names of the new entry are inserted after the end notification, so `hasInterface` is
true for them when the call has returned. For both registration paths the entries seen
at the end notification are the final entries. -/
theorem addBackend_notifications (s : QtIVIServiceManager) (b : Backend) :
    (addBackend s b).trace =
      s.trace ++
        [Event.beginInsertRows s.m_backends.length s.m_backends.length
            ⟨s.m_backends, s.m_interfaceNames⟩,
         Event.endInsertRows ⟨s.m_backends ++ [b], s.m_interfaceNames⟩] ∧
    (s.m_backends ++ [b])[s.m_backends.length]? = some b ∧
    (∀ i : Nat, i < s.m_backends.length → (s.m_backends ++ [b])[i]? = s.m_backends[i]?) ∧
    (∀ n ∈ b.interfaces, hasInterface (addBackend s b) n = true) ∧
    (b.hasKey "interfaces" = true → (addBackend s b).m_backends = s.m_backends ++ [b]) ∧
    (∀ (X : Option QObject) (L : List String), (registerService s X L).1 = true →
      (registerService s X L).2.trace =
        s.trace ++
          [Event.beginInsertRows s.m_backends.length s.m_backends.length
              ⟨s.m_backends, s.m_interfaceNames⟩,
           Event.endInsertRows
              ⟨(registerService s X L).2.m_backends, s.m_interfaceNames⟩]) ∧
    (∀ (fileName : String) (metaData : QJsonObject), hasInterfacesList metaData = true →
      (registerBackend s fileName metaData).trace =
        s.trace ++
          [Event.beginInsertRows s.m_backends.length s.m_backends.length
              ⟨s.m_backends, s.m_interfaceNames⟩,
           Event.endInsertRows
              ⟨(registerBackend s fileName metaData).m_backends, s.m_interfaceNames⟩]) := by
  have htrace : ∀ x : Backend, (addBackend s x).trace =
      s.trace ++
        [Event.beginInsertRows s.m_backends.length s.m_backends.length
            ⟨s.m_backends, s.m_interfaceNames⟩,
         Event.endInsertRows ⟨s.m_backends ++ [x], s.m_interfaceNames⟩] := by
    intro x
    simp [addBackend, QtIVIServiceManager.snapshot]
  refine ⟨htrace b, ?_, fun i hi => List.getElem?_append_left hi, fun n hn => ?_,
    fun hk => ?_, fun X L hreg => ?_, fun fileName metaData hwf => ?_⟩
  · rw [List.getElem?_append_right (Nat.le_refl _)]
    simp
  · simp only [hasInterface, decide_eq_true_eq]
    exact (addBackend_names s b n).mpr (Or.inr hn)
  · rw [addBackend_backends, Backend.afterIndex_of_hasKey b _ hk]
  · rcases registerService_cases s X L with hf | ⟨i, _, _, hadd⟩
    · rw [hf] at hreg
      cases hreg
    · rw [hadd, htrace, addBackend_backends]
      rfl
  · rw [registerBackend_wellFormed s fileName metaData hwf, htrace,
      addBackend_scannedBackend_backends s fileName metaData hwf]

/-- Witness for C20 (amended): the registration of X for `a.b.C` on the manager holding
the scanned `p.Q` plugin announces row 1 and makes `a.b.C` known. -/
theorem addBackend_notifications_witness :
    (registerService scannedPQ (some backendX) ["a.b.C"]).2.trace =
      scannedPQ.trace ++
        [Event.beginInsertRows 1 1 ⟨scannedPQ.m_backends, scannedPQ.m_interfaceNames⟩,
         Event.endInsertRows
            ⟨(registerService scannedPQ (some backendX) ["a.b.C"]).2.m_backends,
              scannedPQ.m_interfaceNames⟩] ∧
    hasInterface (addBackend scannedPQ scannedEntry) "p.Q" = true :=
  ⟨(addBackend_notifications scannedPQ scannedEntry).2.2.2.2.2.1 (some backendX) ["a.b.C"]
      (by decide),
    (addBackend_notifications scannedPQ scannedEntry).2.2.2.1 "p.Q" (by decide)⟩

/-- C21: the load-state invariant. For every entry of every manager reached from the empty
one by any sequence of calls: a retained loader implies a live interface; an owned object
implies a live interface and no loader; so loader and owned object never occur together
and the teardown releases an entry by exactly one of its two branches, or by none when
the entry is not live; an entry with neither loader nor object is not live, and it was
not live at any earlier time since its registration. -/
theorem entry_load_state_invariant (w : World) (ops : List Op) (b : Backend)
    (hb : b ∈ (run w QtIVIServiceManager.empty ops).m_backends) :
    (b.loader ≠ none → b.interface ≠ none) ∧
    (b.interfaceObject ≠ none → b.interface ≠ none ∧ b.loader = none) ∧
    ¬ (b.loader ≠ none ∧ b.interfaceObject ≠ none) ∧
    (b.loader = none → b.interfaceObject = none → b.interface = none) ∧
    (∀ l : QPluginLoader, b.loader = some l →
      releaseBackend b = [Event.loaderUnload l, Event.deleteLoader l]) ∧
    (∀ o : QObject, b.interfaceObject = some o →
      releaseBackend b = [Event.deleteObject o]) ∧
    (b.interface = none → releaseBackend b = []) ∧
    (∀ (ops2 : List Op) (i : Nat) (b1 b2 : Backend),
      (∀ op ∈ ops2, op.isUnload = false) →
      (run w QtIVIServiceManager.empty ops).m_backends[i]? = some b1 →
      (run w (run w QtIVIServiceManager.empty ops) ops2).m_backends[i]? = some b2 →
      b2.loader = none → b2.interfaceObject = none →
      b1.interface = none ∧ b2.interface = none) := by
  obtain ⟨⟨_, _, hnl, hlo⟩, hsrc⟩ := reachable_liveHasSource w ops b hb
  have hneither : b.loader = none → b.interfaceObject = none → b.interface = none := by
    intro hl ho
    by_contra hi
    rcases hsrc hi with h | h
    · exact h hl
    · exact h ho
  refine ⟨fun hl hi => hl (hnl hi).2.1, fun ho => ⟨fun hi => ho (hnl hi).2.2, ?_⟩,
    fun hboth => hboth.2 (hlo hboth.1), hneither, fun l hl => ?_, fun o ho => ?_,
    fun hi => ?_, fun ops2 i b1 b2 hops h1 h2 hl2 ho2 => ?_⟩
  · by_contra hl
    exact ho (hlo hl)
  · simp [releaseBackend, hl]
  · have hl : b.loader = none := by
      by_contra hl
      rw [hlo hl] at ho
      cases ho
    simp [releaseBackend, hl, ho]
  · simp [releaseBackend, (hnl hi).2.1, (hnl hi).2.2]
  · obtain ⟨b3, hb3, hk⟩ := run_preserved w _ ops2 hops i b1 h1
    rw [h2] at hb3
    have hb23 : b2 = b3 := Option.some.inj hb3
    subst hb23
    have hmem2 : b2 ∈ (run w QtIVIServiceManager.empty (ops ++ ops2)).m_backends := by
      have happ : ∀ (s : QtIVIServiceManager) (a c : List Op),
          run w s (a ++ c) = run w (run w s a) c := by
        intro s a c
        induction a generalizing s with
        | nil => rfl
        | cons op rest ih => exact ih _
      rw [happ]
      exact List.getElem?_mem h2
    obtain ⟨_, hsrc2⟩ := reachable_liveHasSource w (ops ++ ops2) b2 hmem2
    have hi2 : b2.interface = none := by
      by_contra hi
      rcases hsrc2 hi with h | h
      · exact h hl2
      · exact h ho2
    refine ⟨?_, hi2⟩
    cases hi1 : b1.interface with
    | none => rfl
    | some o =>
      have := (hk.2.2 o hi1).1
      rw [hi2] at this
      cases this

/-- Witness for C21: the entry loaded from a plugin retains its loader, owns no object and
is live; the scanned entry that was never loaded has neither and is not live. -/
theorem entry_load_state_invariant_witness :
    (loadedEntry.loader ≠ none → loadedEntry.interface ≠ none) ∧
    (scannedEntry.loader = none → scannedEntry.interfaceObject = none →
      scannedEntry.interface = none) ∧
    releaseBackend loadedEntry =
      [Event.loaderUnload ⟨0, "/plugins/qtivi/libpq.so"⟩,
       Event.deleteLoader ⟨0, "/plugins/qtivi/libpq.so"⟩] :=
  ⟨(entry_load_state_invariant worldLoads
      [Op.registerBackend "/plugins/qtivi/libpq.so" metaDataPQ,
       Op.findServiceByInterface "p.Q"] loadedEntry (List.mem_singleton.mpr rfl)).1,
    (entry_load_state_invariant worldLoads
      [Op.registerBackend "/plugins/qtivi/libpq.so" metaDataPQ] scannedEntry
      (List.mem_singleton.mpr rfl)).2.2.2.1,
    (entry_load_state_invariant worldLoads
      [Op.registerBackend "/plugins/qtivi/libpq.so" metaDataPQ,
       Op.findServiceByInterface "p.Q"] loadedEntry (List.mem_singleton.mpr rfl)).2.2.2.2.1
      ⟨0, "/plugins/qtivi/libpq.so"⟩ rfl⟩

/-- C22: the frame of `findServiceByInterface`. On every manager reached from the empty
one by any sequence of calls, a lookup leaves the known interface names, the number and
order of the entries, and the metadata and owned object of every entry unchanged. Every
entry is afterwards either exactly as before or, when it lists the name and was not
live, as before except for its interface pointer and loader; entries that do not list
the name and entries that are already live are left exactly as they were. The lookup
constructs a loader and calls `instance()` once for each entry that lists the name and
is not live, with the file of that entry, and for no other entry. -/
theorem findServiceByInterface_frame (w : World) (ops : List Op) (n : String) :
    (findServiceByInterface w (run w QtIVIServiceManager.empty ops) n).2.m_interfaceNames =
      (run w QtIVIServiceManager.empty ops).m_interfaceNames ∧
    (findServiceByInterface w (run w QtIVIServiceManager.empty ops) n).2.m_backends.length =
      (run w QtIVIServiceManager.empty ops).m_backends.length ∧
    (findServiceByInterface w (run w QtIVIServiceManager.empty ops) n).2.m_backends.map
        (fun b => b.metaData) =
      (run w QtIVIServiceManager.empty ops).m_backends.map (fun b => b.metaData) ∧
    (findServiceByInterface w (run w QtIVIServiceManager.empty ops) n).2.m_backends.map
        (fun b => b.interfaceObject) =
      (run w QtIVIServiceManager.empty ops).m_backends.map (fun b => b.interfaceObject) ∧
    (∀ (i : Nat) (b : Backend),
      (run w QtIVIServiceManager.empty ops).m_backends[i]? = some b →
      ∃ b2, (findServiceByInterface w (run w QtIVIServiceManager.empty ops)
          n).2.m_backends[i]? = some b2 ∧ Backend.loadedFrom n b b2) ∧
    (∀ (i : Nat) (b : Backend),
      (run w QtIVIServiceManager.empty ops).m_backends[i]? = some b →
      Backend.provides n b = false ∨ b.interface ≠ none →
      (findServiceByInterface w (run w QtIVIServiceManager.empty ops)
        n).2.m_backends[i]? = some b) ∧
    (findServiceByInterface w (run w QtIVIServiceManager.empty ops) n).2.loadersConstructed =
      (run w QtIVIServiceManager.empty ops).loadersConstructed +
        ((run w QtIVIServiceManager.empty ops).m_backends.filter
          (fun b => Backend.provides n b && b.notLive)).length ∧
    (instanceCalls (findServiceByInterface w (run w QtIVIServiceManager.empty ops)
        n).2.trace).map (fun l => l.fileName) =
      (instanceCalls (run w QtIVIServiceManager.empty ops).trace).map
        (fun l => l.fileName) ++
        ((run w QtIVIServiceManager.empty ops).m_backends.filter
          (fun b => Backend.provides n b && b.notLive)).map Backend.fileName := by
  have hok : ∀ b ∈ (run w QtIVIServiceManager.empty ops).m_backends, b.ok :=
    fun b hb => (consistent_run w _ ops consistent_empty b hb).1
  refine ⟨rfl, findLoop_length w n _ _ _, ?_, ?_, fun i b hb => ?_, fun i b hb hc => ?_,
    findLoop_count w n _ _ _, findLoop_instanceCalls w n _ _ _⟩
  · exact findLoop_map_eq _ w n _ _ _ hok
      (fun b b2 h => (Backend.loadedFrom_fields n b b2 h).1)
  · exact findLoop_map_eq _ w n _ _ _ hok
      (fun b b2 h => (Backend.loadedFrom_fields n b b2 h).2.1)
  · exact findLoop_frame w n _ _ _ hok i b hb
  · obtain ⟨b2, hb2, hfrom⟩ := findLoop_frame w n
      (run w QtIVIServiceManager.empty ops).m_backends
      (run w QtIVIServiceManager.empty ops).loadersConstructed
      (run w QtIVIServiceManager.empty ops).trace hok i b hb
    have heq := (Backend.loadedFrom_fields n b b2 hfrom).2.2 hc
    simp only [findServiceByInterface]
    rw [hb2, heq]

/-- Witness for C22: on the manager holding the loaded `p.Q` plugin and the directly
registered X, a lookup of `p.Q` leaves both entries as they were. -/
theorem findServiceByInterface_frame_witness :
    (findServiceByInterface worldLoads
      (run worldLoads QtIVIServiceManager.empty
        [Op.registerBackend "/plugins/qtivi/libpq.so" metaDataPQ,
         Op.findServiceByInterface "p.Q",
         Op.registerService (some backendX) ["a.b.C"]]) "p.Q").2.m_backends[0]? =
      some loadedEntry ∧
    (findServiceByInterface worldLoads
      (run worldLoads QtIVIServiceManager.empty
        [Op.registerBackend "/plugins/qtivi/libpq.so" metaDataPQ,
         Op.findServiceByInterface "p.Q",
         Op.registerService (some backendX) ["a.b.C"]]) "p.Q").2.m_backends[1]? =
      some ⟨[("interfaces", QVariant.stringList ["a.b.C"])], some backendX, some backendX,
        none⟩ :=
  ⟨(findServiceByInterface_frame worldLoads
      [Op.registerBackend "/plugins/qtivi/libpq.so" metaDataPQ,
       Op.findServiceByInterface "p.Q",
       Op.registerService (some backendX) ["a.b.C"]] "p.Q").2.2.2.2.2.1 0 loadedEntry rfl
      (Or.inr (by decide)),
    (findServiceByInterface_frame worldLoads
      [Op.registerBackend "/plugins/qtivi/libpq.so" metaDataPQ,
       Op.findServiceByInterface "p.Q",
       Op.registerService (some backendX) ["a.b.C"]] "p.Q").2.2.2.2.2.1 1
      ⟨[("interfaces", QVariant.stringList ["a.b.C"])], some backendX, some backendX, none⟩
      rfl (Or.inl (by decide))⟩

end QtIVI
